import Mathlib

/-!
Verification of the Run Lifecycle Coordinator (adapter_host).

Shallow embedding of `app/redaction.py`, `app/emitter.py`, `app/store.py`,
`app/models.py` and `app/routes/runs.py`.  Strings are `List Char`; the
regular expressions of `_PATTERNS` are embedded as deterministic matchers
(each regex is a sequence of literals and greedy character-class runs whose
adjacent items have disjoint first characters, so a backtracking engine and
the deterministic matcher agree).  `re.sub` is the leftmost, non-overlapping
scan `subAux`.
-/

namespace AdapterHost

/-- The sentinel `REDACTED = "[REDACTED]"` from redaction.py, as a char list. -/
def REDSTR : List Char := ['[', 'R', 'E', 'D', 'A', 'C', 'T', 'E', 'D', ']']

/-- The tail of the sentinel after its opening bracket. -/
def RTAIL : List Char := ['R', 'E', 'D', 'A', 'C', 'T', 'E', 'D', ']']

/-- Character class `[A-Za-z0-9]`. -/
def isAlnum (c : Char) : Bool := c.isAlpha || c.isDigit

/-- Character class `[0-9A-Z]`. -/
def isUpDig (c : Char) : Bool := ('A' ≤ c && c ≤ 'Z') || c.isDigit

/-- ASCII whitespace, the characters matched by a regex backslash-s class. -/
def isSpc (c : Char) : Bool :=
  c = ' ' || c = '\t' || c = '\n' || c = '\r' || c = '\x0b' || c = '\x0c'

/-- The single-quote character. -/
def squote : Char := Char.ofNat 39

/-- Character class of the api-key value: any char except whitespace and quotes. -/
def isValChar (c : Char) : Bool := !(isSpc c) && c ≠ '"' && c ≠ squote

/-- The character `=` as a class (the trailing `=` repetition of the Bearer pattern). -/
def isEq (c : Char) : Bool := c = '='

/-- Character class `[A-Za-z0-9 dash dot underscore tilde plus slash]` of the Bearer token body. -/
def cls4 (c : Char) : Bool :=
  c.isAlpha || c.isDigit || c = '-' || c = '.' || c = '_' || c = '~' || c = '+' || c = '/'

/-- Literal matcher: consumes exactly the word `w` (case sensitive). -/
def litP (w : List Char) (cs : List Char) : Option Nat :=
  if cs.take w.length = w then some w.length else none

/-- Case-insensitive prefix test: each position lists its two accepted characters
(lower and upper case), modelling `re.IGNORECASE` on an ASCII literal. -/
def ciPref : List (Char × Char) → List Char → Bool
  | [], _ => true
  | _ :: _, [] => false
  | p :: w, c :: cs => (c = p.1 || c = p.2) && ciPref w cs

/-- Case-insensitive literal matcher. -/
def litCI (w : List (Char × Char)) (cs : List Char) : Option Nat :=
  if ciPref w cs then some w.length else none

/-- Length of the maximal run of characters satisfying `p` (a greedy star). -/
def maxRun (p : Char → Bool) : List Char → Nat
  | [] => 0
  | c :: cs => if p c then maxRun p cs + 1 else 0

/-- Optional single character from a class (a regex question mark): 0 or 1. -/
def optP (p : Char → Bool) (cs : List Char) : Nat :=
  match cs with
  | [] => 0
  | c :: _ => if p c then 1 else 0

/-- Shared shape of the first three patterns: a literal prefix followed by a
greedy alphanumeric run of at least 20 characters. -/
def litRun20 (w : List Char) (cs : List Char) : Option Nat :=
  match litP w cs with
  | none => none
  | some a =>
    let r := maxRun isAlnum (cs.drop a)
    if 20 ≤ r then some (a + r) else none

/-- Matcher for `sk-[A-Za-z0-9]` repeated at least 20 times (OpenAI keys). -/
def matchSk (cs : List Char) : Option Nat := litRun20 "sk-".data cs

/-- Matcher for `ghp_[A-Za-z0-9]` repeated at least 20 times (GitHub tokens). -/
def matchGhp (cs : List Char) : Option Nat := litRun20 "ghp_".data cs

/-- Matcher for `github_pat_[A-Za-z0-9]` repeated at least 20 times. -/
def matchGhPat (cs : List Char) : Option Nat := litRun20 "github_pat_".data cs

/-- The word `Bearer`, case-insensitively. -/
def bearerCI : List (Char × Char) :=
  [('b', 'B'), ('e', 'E'), ('a', 'A'), ('r', 'R'), ('e', 'E'), ('r', 'R')]

/-- Matcher for `Bearer`, whitespace (at least one), token body (at least one
char of `cls4`), then any number of `=` (IGNORECASE). -/
def matchBearer (cs : List Char) : Option Nat :=
  match litCI bearerCI cs with
  | none => none
  | some a =>
    let s1 := maxRun isSpc (cs.drop a)
    if s1 = 0 then none
    else
      let r := maxRun cls4 (cs.drop (a + s1))
      if r = 0 then none
      else
        let e := maxRun isEq (cs.drop (a + s1 + r))
        some (a + s1 + r + e)

/-- Matcher for `AKIA[0-9A-Z]` repeated exactly 16 times (AWS access keys). -/
def matchAkia (cs : List Char) : Option Nat :=
  match litP "AKIA".data cs with
  | none => none
  | some a =>
    let block := (cs.drop a).take 16
    if block.length = 16 && block.all isUpDig then some (a + 16) else none

/-- Character class of the optional separator in the api-key pattern. -/
def isDash (c : Char) : Bool := c = '_' || c = '-'

/-- The word `api`, case-insensitively. -/
def apiCI : List (Char × Char) := [('a', 'A'), ('p', 'P'), ('i', 'I')]

/-- The word `key`, case-insensitively. -/
def keyCI : List (Char × Char) := [('k', 'K'), ('e', 'E'), ('y', 'Y')]

/-- Matcher for the fixed part of the generic api-key assignment:
`api`, optional underscore or dash, `key`, spaces, `=`, spaces (IGNORECASE). -/
def matchPre6 (cs : List Char) : Option Nat :=
  match litCI apiCI cs with
  | none => none
  | some a3 =>
    let o := optP isDash (cs.drop a3)
    match litCI keyCI (cs.drop (a3 + o)) with
    | none => none
    | some k3 =>
      let p := a3 + o + k3
      let s1 := maxRun isSpc (cs.drop p)
      match litP ['='] (cs.drop (p + s1)) with
      | none => none
      | some e1 =>
        let q := p + s1 + e1
        let s2 := maxRun isSpc (cs.drop q)
        some (q + s2)

/-- Matcher for the full api-key assignment: the fixed part followed by a
value of at least one non-space non-quote character. -/
def matchApiKey (cs : List Char) : Option Nat :=
  match matchPre6 cs with
  | none => none
  | some a =>
    let v := maxRun isValChar (cs.drop a)
    if v = 0 then none else some (a + v)

/-- The six secret patterns of `_PATTERNS`, in source order. -/
inductive Pat where
  | sk | ghp | ghpat | bearer | akia | apikey
deriving DecidableEq

/-- The matcher of each pattern.  `matcher p cs = some n` means the pattern
matches a prefix of `cs` of length `n` (the leftmost-greedy match a regex
engine would produce at this position). -/
def Pat.matcher : Pat → (List Char → Option Nat)
  | .sk => matchSk
  | .ghp => matchGhp
  | .ghpat => matchGhPat
  | .bearer => matchBearer
  | .akia => matchAkia
  | .apikey => matchApiKey

/-- The ordered pattern list of `_PATTERNS`. -/
def PATLIST : List Pat := [.sk, .ghp, .ghpat, .bearer, .akia, .apikey]

/-- `p.sub(REDACTED, s)`: scan left to right; at each position, replace the
(greedy, leftmost, non-overlapping) match with the sentinel and continue after
it.  The patterns never match the empty string, so the `max n 1` guard (which
also makes termination evident) never changes the step size. -/
def subAux (m : List Char → Option Nat) : List Char → List Char
  | [] => []
  | c :: cs =>
    match m (c :: cs) with
    | none => c :: subAux m cs
    | some n => REDSTR ++ subAux m (List.drop (max n 1) (c :: cs))
termination_by cs => cs.length
decreasing_by
  · simp
  · simp only [List.length_drop, List.length_cons]
    omega

/-- `redact_str` from redaction.py: apply the six substitutions in order. -/
def redact_str (s : List Char) : List Char :=
  PATLIST.foldl (fun acc p => subAux p.matcher acc) s

/-- A position of `cs` (including interior ones) where `m` matches. -/
def hasSite (m : List Char → Option Nat) : List Char → Bool
  | [] => false
  | c :: cs => (m (c :: cs)).isSome || hasSite m cs

theorem subAux_nil (m : List Char → Option Nat) : subAux m [] = [] := by
  rw [subAux]

theorem subAux_cons_none {m : List Char → Option Nat} {c : Char} {cs : List Char}
    (h : m (c :: cs) = none) : subAux m (c :: cs) = c :: subAux m cs := by
  rw [subAux, h]

theorem subAux_cons_some {m : List Char → Option Nat} {c : Char} {cs : List Char} {n : Nat}
    (h : m (c :: cs) = some n) :
    subAux m (c :: cs) = REDSTR ++ subAux m (List.drop (max n 1) (c :: cs)) := by
  rw [subAux, h]

theorem hasSite_of_drop {m : List Char → Option Nat} (hnil : m [] = none) :
    ∀ (cs : List Char) (i : Nat), (m (cs.drop i)).isSome → hasSite m cs = true := by
  intro cs
  induction cs with
  | nil => intro i h; simp [List.drop_nil, hnil] at h
  | cons c cs ih =>
    intro i h
    match i with
    | 0 => simp only [List.drop_zero] at h; simp [hasSite, h]
    | Nat.succ j =>
      simp only [List.drop_succ_cons] at h
      simp [hasSite, ih j h]

theorem hasSite_false_of_none {m : List Char → Option Nat} :
    ∀ (cs : List Char), (∀ i, m (cs.drop i) = none) → hasSite m cs = false := by
  intro cs
  induction cs with
  | nil => intro _; rfl
  | cons c cs ih =>
    intro h
    have h0 := h 0
    simp only [List.drop_zero] at h0
    simp [hasSite, h0, ih (fun i => h (i + 1))]

theorem subAux_id_of_not_hasSite {m : List Char → Option Nat} :
    ∀ (cs : List Char), hasSite m cs = false → subAux m cs = cs := by
  intro cs
  induction cs with
  | nil => intro _; exact subAux_nil m
  | cons c cs ih =>
    intro h
    simp only [hasSite, Bool.or_eq_false_iff] at h
    have hm : m (c :: cs) = none := by
      cases hmc : m (c :: cs) with
      | none => rfl
      | some n => rw [hmc] at h; simp at h
    rw [subAux_cons_none hm, ih h.2]

theorem red_infix_subAux_of_hasSite {m : List Char → Option Nat} :
    ∀ (cs : List Char), hasSite m cs = true → REDSTR <:+: subAux m cs := by
  intro cs
  induction cs with
  | nil => intro h; simp [hasSite] at h
  | cons c cs' ih =>
    intro h
    cases hm : m (c :: cs') with
    | some n =>
      rw [subAux_cons_some hm]
      exact List.IsPrefix.isInfix (REDSTR.prefix_append _)
    | none =>
      rw [subAux_cons_none hm]
      simp only [hasSite, hm, Option.isSome_none, Bool.false_or] at h
      exact REDSTR.infix_cons (ih h)

theorem red_infix_subAux_preserved {m : List Char → Option Nat}
    (cs : List Char) (h : REDSTR <:+: cs) : REDSTR <:+: subAux m cs := by
  cases hs : hasSite m cs with
  | true => exact red_infix_subAux_of_hasSite cs hs
  | false => rw [subAux_id_of_not_hasSite cs hs]; exact h

/-- Decomposition of a prefix of an append. -/
theorem pref_split {α : Type} :
    ∀ {l1 : List α} {t l2 : List α}, t <+: l1 ++ l2 →
      t <+: l1 ∨ ∃ y, t = l1 ++ y ∧ y <+: l2 := by
  intro l1
  induction l1 with
  | nil => intro t l2 h; exact Or.inr ⟨t, by simpa using h⟩
  | cons a l1' ih =>
    intro t l2 h
    match t with
    | [] => exact Or.inl List.nil_prefix
    | b :: t' =>
      rw [List.cons_append, List.cons_prefix_cons] at h
      obtain ⟨rfl, h'⟩ := h
      rcases ih h' with h'' | ⟨y, rfl, hy⟩
      · exact Or.inl (List.cons_prefix_cons.mpr ⟨rfl, h''⟩)
      · exact Or.inr ⟨y, by simp, hy⟩

/-- Decomposition of an infix of an append: inside the left part, inside the
right part, or straddling the boundary. -/
theorem infix_split {α : Type} :
    ∀ {l1 : List α} {t l2 : List α}, t <:+: l1 ++ l2 →
      t <:+: l1 ∨ t <:+: l2 ∨
        ∃ x y, t = x ++ y ∧ x ≠ [] ∧ y ≠ [] ∧ x <:+ l1 ∧ y <+: l2 := by
  intro l1
  induction l1 with
  | nil => intro t l2 h; exact Or.inr (Or.inl (by simpa using h))
  | cons a l1' ih =>
    intro t l2 h
    rw [List.cons_append, List.infix_cons_iff] at h
    rcases h with h | h
    · rcases @pref_split _ (a :: l1') t l2 (by simpa using h) with
        h' | ⟨y, rfl, hy⟩
      · exact Or.inl (List.IsPrefix.isInfix h')
      · match y, hy with
        | [], _ => exact Or.inl (by simp [List.infix_refl])
        | b :: y', hy =>
          exact Or.inr (Or.inr ⟨a :: l1', b :: y', rfl, by simp, by simp,
            List.suffix_refl _, hy⟩)
    · rcases ih h with h' | h' | ⟨x, y, rfl, hx, hy, hxl, hyl⟩
      · exact Or.inl (t.infix_cons h')
      · exact Or.inr (Or.inl h')
      · exact Or.inr (Or.inr ⟨x, y, rfl, hx, hy, hxl.trans (List.suffix_cons a l1'), hyl⟩)

theorem REDSTR_cons : REDSTR = '[' :: RTAIL := rfl

/-- Every nonempty suffix of the sentinel contains the closing bracket. -/
theorem rb_mem_of_suffix {x : List Char} (hx : x ≠ []) (h : x <:+ REDSTR) : ']' ∈ x := by
  have hlen : x.length ≤ REDSTR.length := List.IsSuffix.length_le h
  have hdrop : x = REDSTR.drop (REDSTR.length - x.length) := List.suffix_iff_eq_drop.mp h
  have hpos : 0 < x.length := List.length_pos.mpr hx
  have h10 : REDSTR.length = 10 := by decide
  set k := REDSTR.length - x.length with hk
  have hk9 : k ≤ 9 := by omega
  rw [hdrop]
  interval_cases k <;> decide

/-- A bracket-free prefix of the output of one substitution pass is a prefix
of its input. -/
theorem sub_pref_split {m : List Char → Option Nat} :
    ∀ (cs t : List Char), t <+: subAux m cs → '[' ∈ t ∨ t <+: cs := by
  have H : ∀ (L : Nat) (cs t : List Char), cs.length ≤ L →
      t <+: subAux m cs → '[' ∈ t ∨ t <+: cs := by
    intro L
    induction L with
    | zero =>
      intro cs t hL h
      have hcs : cs = [] := List.eq_nil_of_length_eq_zero (Nat.le_zero.mp hL)
      subst hcs
      rw [subAux_nil] at h
      exact Or.inr h
    | succ L IH =>
      intro cs t hL h
      match cs with
      | [] => rw [subAux_nil] at h; exact Or.inr h
      | c :: cs' =>
        cases hm : m (c :: cs') with
        | none =>
          rw [subAux_cons_none hm] at h
          match t with
          | [] => exact Or.inr List.nil_prefix
          | b :: t' =>
            rw [List.cons_prefix_cons] at h
            obtain ⟨rfl, h'⟩ := h
            rcases IH cs' t' (by simpa using hL) h' with hb | hp
            · exact Or.inl (List.mem_cons_of_mem _ hb)
            · exact Or.inr (List.cons_prefix_cons.mpr ⟨rfl, hp⟩)
        | some n =>
          rw [subAux_cons_some hm] at h
          match t with
          | [] => exact Or.inr List.nil_prefix
          | b :: t' =>
            rw [REDSTR_cons, List.cons_append, List.cons_prefix_cons] at h
            exact Or.inl (h.1 ▸ List.mem_cons_self _ _)
  intro cs t h
  exact H cs.length cs t le_rfl h

/-- An infix of the output of one substitution pass is an infix of the input,
unless it contains a bracket or lies inside the sentinel. -/
theorem sub_infix_split {m : List Char → Option Nat} :
    ∀ (cs t : List Char), t <:+: subAux m cs →
      t <:+: cs ∨ '[' ∈ t ∨ ']' ∈ t ∨ t <:+: REDSTR := by
  have H : ∀ (L : Nat) (cs t : List Char), cs.length ≤ L →
      t <:+: subAux m cs → t <:+: cs ∨ '[' ∈ t ∨ ']' ∈ t ∨ t <:+: REDSTR := by
    intro L
    induction L with
    | zero =>
      intro cs t hL h
      have hcs : cs = [] := List.eq_nil_of_length_eq_zero (Nat.le_zero.mp hL)
      subst hcs
      rw [subAux_nil] at h
      exact Or.inl h
    | succ L IH =>
      intro cs t hL h
      match cs with
      | [] => rw [subAux_nil] at h; exact Or.inl h
      | c :: cs' =>
        cases hm : m (c :: cs') with
        | none =>
          rw [subAux_cons_none hm] at h
          rcases List.infix_cons_iff.mp h with h' | h'
          · have h'' : t <+: subAux m (c :: cs') := by
              rw [subAux_cons_none hm]; exact h'
            rcases sub_pref_split (c :: cs') t h'' with hb | hp
            · exact Or.inr (Or.inl hb)
            · exact Or.inl (List.IsPrefix.isInfix hp)
          · rcases IH cs' t (by simpa using hL) h' with h'' | h'' | h'' | h''
            · exact Or.inl (t.infix_cons h'')
            · exact Or.inr (Or.inl h'')
            · exact Or.inr (Or.inr (Or.inl h''))
            · exact Or.inr (Or.inr (Or.inr h''))
        | some n =>
          rw [subAux_cons_some hm] at h
          rcases infix_split h with h' | h' | ⟨x, y, hxy, hx, _, hxl, _⟩
          · exact Or.inr (Or.inr (Or.inr h'))
          · have hlen : (List.drop (max n 1) (c :: cs')).length ≤ L := by
              simp only [List.length_drop, List.length_cons]
              simp only [List.length_cons] at hL
              omega
            rcases IH _ t hlen h' with h'' | h'' | h'' | h''
            · exact Or.inl (List.IsInfix.trans h''
                (List.IsSuffix.isInfix (List.drop_suffix _ _)))
            · exact Or.inr (Or.inl h'')
            · exact Or.inr (Or.inr (Or.inl h''))
            · exact Or.inr (Or.inr (Or.inr h''))
          · have : ']' ∈ t := by
              rw [hxy]
              exact List.mem_append_left y (rb_mem_of_suffix hx hxl)
            exact Or.inr (Or.inr (Or.inl this))
  intro cs t h
  exact H cs.length cs t le_rfl h

/-- Core scan argument, prefix form.  If every occurrence of `t` is a match
site of `m` (`hext`), `t` neither starts like the sentinel nor swallows it
(`hnp1`, `hnp2`), and an opening bracket inside `t` only occurs where the text
before it re-creates a match site (`hbr`), then `t` never survives as a prefix
of a substitution pass.  The induction carries the scan history: the `r`
characters of `t` already emitted were no-match positions. -/
theorem scan_prefix_kill {m : List Char → Option Nat} {t : List Char}
    (hne : t ≠ [])
    (hext : ∀ ds, (m (t ++ ds)).isSome = true)
    (hnp1 : ¬ t <+: REDSTR) (hnp2 : ¬ REDSTR <+: t)
    (hbr : ∀ r ds, 0 < r → r < t.length → t[r]? = some '[' →
        (m ds).isSome = true → (m (t.take r ++ ds)).isSome = true) :
    ∀ (cs : List Char) (r : Nat), r ≤ t.length →
      (0 < r → m (t.take r ++ cs) = none) → ¬ (t.drop r <+: subAux m cs) := by
  have hdone : ∀ (cs : List Char) (r : Nat), r ≤ t.length → t.drop r = [] →
      (0 < r → m (t.take r ++ cs) = none) → False := by
    intro cs r hr hdr hhist
    have hreq : r = t.length := by
      have := congrArg List.length hdr
      simp only [List.length_drop, List.length_nil] at this
      omega
    have h1 := hhist (by rw [hreq]; exact List.length_pos.mpr hne)
    rw [hreq, List.take_length] at h1
    have h2 := hext cs
    rw [h1] at h2
    simp at h2
  have H : ∀ (L : Nat) (cs : List Char) (r : Nat), cs.length ≤ L → r ≤ t.length →
      (0 < r → m (t.take r ++ cs) = none) → ¬ (t.drop r <+: subAux m cs) := by
    intro L
    induction L with
    | zero =>
      intro cs r hL hr hhist h
      have hcs : cs = [] := List.eq_nil_of_length_eq_zero (Nat.le_zero.mp hL)
      subst hcs
      rw [subAux_nil] at h
      exact hdone [] r hr (List.prefix_nil.mp h) hhist
    | succ L IH =>
      intro cs r hL hr hhist h
      by_cases hdr : t.drop r = []
      · exact hdone cs r hr hdr hhist
      · obtain ⟨d, rest, hdr3⟩ : ∃ d rest, t.drop r = d :: rest := by
          match hdd : t.drop r with
          | [] => exact absurd hdd hdr
          | d :: rest => exact ⟨d, rest, rfl⟩
        have hrlt : r < t.length := by
          by_contra hge
          exact hdr (List.drop_eq_nil_of_le (by omega))
        match cs with
        | [] =>
          rw [subAux_nil] at h
          exact hdr (List.prefix_nil.mp h)
        | c :: cs' =>
          cases hm : m (c :: cs') with
          | none =>
            rw [subAux_cons_none hm, hdr3, List.cons_prefix_cons] at h
            obtain ⟨rfl, hrest⟩ := h
            have hrest2 : t.drop (r + 1) = rest := by
              have := congrArg (List.drop 1) hdr3
              rw [List.drop_drop] at this
              simpa using this
            have hgetr : t[r]? = some d := by
              have := List.head?_drop t r
              rw [hdr3] at this
              simpa using this.symm
            have htake : t.take (r + 1) = t.take r ++ [d] := by
              rw [List.take_succ, hgetr]
              rfl
            have hhist' : 0 < r + 1 → m (t.take (r + 1) ++ cs') = none := by
              intro _
              rw [htake, List.append_assoc, List.singleton_append]
              rcases Nat.eq_zero_or_pos r with hr0 | hrpos
              · subst hr0; simpa using hm
              · have := hhist hrpos
                simpa using this
            have hIH := IH cs' (r + 1) (by simpa using hL) (by omega) hhist'
            rw [hrest2] at hIH
            exact hIH hrest
          | some n =>
            rw [subAux_cons_some hm] at h
            have hcomp : t.drop r <+: REDSTR ∨ REDSTR <+: t.drop r :=
              List.prefix_or_prefix_of_prefix h (REDSTR.prefix_append _)
            have hhead : t[r]? = some '[' := by
              have h1 : d = '[' := by
                rcases hcomp with h' | h'
                · rw [hdr3, REDSTR_cons, List.cons_prefix_cons] at h'
                  exact h'.1
                · obtain ⟨u, hu⟩ := h'
                  rw [hdr3, REDSTR_cons, List.cons_append] at hu
                  exact (List.cons.injEq _ _ _ _ ▸ hu).1.symm
              have := List.head?_drop t r
              rw [hdr3] at this
              rw [← h1]
              simpa using this.symm
            rcases Nat.eq_zero_or_pos r with hr0 | hrpos
            · subst hr0
              simp only [List.drop_zero] at hcomp
              rcases hcomp with h' | h'
              · exact hnp1 h'
              · exact hnp2 h'
            · have hsome := hbr r (c :: cs') hrpos hrlt hhead (by rw [hm]; rfl)
              have hh := hhist hrpos
              rw [hh] at hsome
              simp at hsome
  intro cs r hr hhist
  exact H cs.length cs r le_rfl hr hhist

/-- Core scan argument, infix form: under the same side conditions plus the
sentinel-boundary conditions, a match-site string `t` never survives anywhere
in the output of its own substitution pass. -/
theorem scan_kill {m : List Char → Option Nat} {t : List Char}
    (hne : t ≠ [])
    (hext : ∀ ds, (m (t ++ ds)).isSome = true)
    (hnp1 : ¬ t <+: REDSTR) (hnp2 : ¬ REDSTR <+: t)
    (hninf : ¬ t <:+: REDSTR)
    (hnosuf : ∀ x, x ≠ [] → x <:+ REDSTR → ¬ x <+: t)
    (hbr : ∀ r ds, 0 < r → r < t.length → t[r]? = some '[' →
        (m ds).isSome = true → (m (t.take r ++ ds)).isSome = true) :
    ∀ (cs : List Char), ¬ t <:+: subAux m cs := by
  have H : ∀ (L : Nat) (cs : List Char), cs.length ≤ L → ¬ t <:+: subAux m cs := by
    intro L
    induction L with
    | zero =>
      intro cs hL h
      have hcs : cs = [] := List.eq_nil_of_length_eq_zero (Nat.le_zero.mp hL)
      subst hcs
      rw [subAux_nil] at h
      exact hne (List.infix_nil.mp h)
    | succ L IH =>
      intro cs hL h
      match cs with
      | [] =>
        rw [subAux_nil] at h
        exact hne (List.infix_nil.mp h)
      | c :: cs' =>
        cases hm : m (c :: cs') with
        | none =>
          rw [subAux_cons_none hm] at h
          rcases List.infix_cons_iff.mp h with h' | h'
          · have h'' : t <+: subAux m (c :: cs') := by
              rw [subAux_cons_none hm]; exact h'
            exact scan_prefix_kill hne hext hnp1 hnp2 hbr (c :: cs') 0
              (Nat.zero_le _) (fun h0 => absurd h0 (lt_irrefl 0))
              (by simpa using h'')
          · exact IH cs' (by simpa using hL) h'
        | some n =>
          rw [subAux_cons_some hm] at h
          rcases infix_split h with h' | h' | ⟨x, y, hxy, hx, _, hxl, _⟩
          · exact hninf h'
          · have hlen : (List.drop (max n 1) (c :: cs')).length ≤ L := by
              simp only [List.length_drop, List.length_cons]
              simp only [List.length_cons] at hL
              omega
            exact IH _ hlen h'
          · exact hnosuf x hx hxl (hxy ▸ x.prefix_append y)
  intro cs
  exact H cs.length cs le_rfl

theorem maxRun_take_sat (p : Char → Bool) :
    ∀ (ls : List Char), ∀ c ∈ ls.take (maxRun p ls), p c = true := by
  intro ls
  induction ls with
  | nil => intro c hc; simp at hc
  | cons a ls ih =>
    intro c hc
    by_cases hp : p a = true
    · rw [show maxRun p (a :: ls) = maxRun p ls + 1 from by simp [maxRun, hp]] at hc
      rw [List.take_succ_cons] at hc
      rcases List.mem_cons.mp hc with rfl | hc'
      · exact hp
      · exact ih c hc'
    · rw [show maxRun p (a :: ls) = 0 from by
        simp [maxRun]; exact Bool.eq_false_iff.mpr hp] at hc
      simp at hc

theorem maxRun_le_length (p : Char → Bool) :
    ∀ (ls : List Char), maxRun p ls ≤ ls.length := by
  intro ls
  induction ls with
  | nil => simp [maxRun]
  | cons a ls ih =>
    by_cases hp : p a = true
    · simp [maxRun, hp]; omega
    · simp [maxRun, Bool.eq_false_iff.mpr hp]

theorem maxRun_append_ge (p : Char → Bool) {xs : List Char}
    (hxs : ∀ c ∈ xs, p c = true) (ys : List Char) :
    xs.length ≤ maxRun p (xs ++ ys) := by
  induction xs with
  | nil => simp
  | cons a xs ih =>
    have ha : p a = true := hxs a (List.mem_cons_self _ _)
    rw [List.cons_append, show maxRun p (a :: (xs ++ ys)) = maxRun p (xs ++ ys) + 1 from by
      simp [maxRun, ha]]
    have := ih (fun c hc => hxs c (List.mem_cons_of_mem _ hc))
    simp only [List.length_cons]
    omega

theorem maxRun_append_exact (p : Char → Bool) {xs ys : List Char}
    (hxs : ∀ c ∈ xs, p c = true)
    (hys : ∀ c, ys.head? = some c → p c = false) :
    maxRun p (xs ++ ys) = xs.length := by
  induction xs with
  | nil =>
    simp only [List.nil_append, List.length_nil]
    match ys with
    | [] => rfl
    | c :: ys' =>
      have := hys c rfl
      simp [maxRun, this]
  | cons a xs ih =>
    have ha : p a = true := hxs a (List.mem_cons_self _ _)
    rw [List.cons_append, show maxRun p (a :: (xs ++ ys)) = maxRun p (xs ++ ys) + 1 from by
      simp [maxRun, ha]]
    rw [ih (fun c hc => hxs c (List.mem_cons_of_mem _ hc))]
    rfl

theorem litP_some {w cs : List Char} {a : Nat} (h : litP w cs = some a) :
    a = w.length ∧ cs.take w.length = w := by
  unfold litP at h
  split at h
  · exact ⟨(Option.some.injEq _ _ ▸ h).symm, by assumption⟩
  · exact absurd h (by simp)

theorem litP_append (w x : List Char) : litP w (w ++ x) = some w.length := by
  unfold litP
  rw [List.take_left]
  simp

theorem ciPref_length {w : List (Char × Char)} :
    ∀ {cs : List Char}, ciPref w cs = true → w.length ≤ cs.length := by
  induction w with
  | nil => intro cs _; simp
  | cons p w ih =>
    intro cs h
    match cs with
    | [] => simp [ciPref] at h
    | c :: cs' =>
      simp only [ciPref, Bool.and_eq_true] at h
      have := ih h.2
      simp only [List.length_cons]
      omega

theorem ciPref_append_take {w : List (Char × Char)} :
    ∀ {cs : List Char}, ciPref w cs = true → ∀ (ds : List Char),
      ciPref w (cs.take w.length ++ ds) = true := by
  induction w with
  | nil => intro cs _ ds; rfl
  | cons p w ih =>
    intro cs h ds
    match cs with
    | [] => simp [ciPref] at h
    | c :: cs' =>
      simp only [ciPref, Bool.and_eq_true] at h
      simp only [List.length_cons, List.take_succ_cons, List.cons_append, ciPref,
        Bool.and_eq_true]
      exact ⟨h.1, ih h.2 ds⟩

theorem ciPref_chars {w : List (Char × Char)} :
    ∀ {cs : List Char}, ciPref w cs = true →
      ∀ c ∈ cs.take w.length, ∃ pr ∈ w, c = pr.1 ∨ c = pr.2 := by
  induction w with
  | nil => intro cs _ c hc; simp at hc
  | cons p w ih =>
    intro cs h c hc
    match cs with
    | [] => simp [ciPref] at h
    | c' :: cs' =>
      simp only [ciPref, Bool.and_eq_true] at h
      rw [List.length_cons, List.take_succ_cons] at hc
      rcases List.mem_cons.mp hc with rfl | hc'
      · refine ⟨p, List.mem_cons_self _ _, ?_⟩
        rcases Bool.or_eq_true _ _ ▸ h.1 with h' | h'
        · exact Or.inl (by simpa using h')
        · exact Or.inr (by simpa using h')
      · obtain ⟨pr, hpr, hor⟩ := ih h.2 c hc'
        exact ⟨pr, List.mem_cons_of_mem _ hpr, hor⟩

theorem ciPref_head {p : Char × Char} {w : List (Char × Char)} {cs : List Char}
    (h : ciPref (p :: w) cs = true) :
    ∃ c cs', cs = c :: cs' ∧ (c = p.1 ∨ c = p.2) := by
  match cs with
  | [] => simp [ciPref] at h
  | c :: cs' =>
    simp only [ciPref, Bool.and_eq_true] at h
    refine ⟨c, cs', rfl, ?_⟩
    rcases Bool.or_eq_true _ _ ▸ h.1 with h' | h'
    · exact Or.inl (by simpa using h')
    · exact Or.inr (by simpa using h')

theorem litRun20_some {w cs : List Char} {n : Nat} (h : litRun20 w cs = some n) :
    cs.take w.length = w ∧ 20 ≤ maxRun isAlnum (cs.drop w.length) ∧
      n = w.length + maxRun isAlnum (cs.drop w.length) := by
  unfold litRun20 at h
  cases hl : litP w cs with
  | none => rw [hl] at h; exact absurd h (by simp)
  | some a =>
    rw [hl] at h
    obtain ⟨rfl, hw⟩ := litP_some hl
    simp only [] at h
    split at h
    · refine ⟨hw, by assumption, ?_⟩
      exact (Option.some.injEq _ _ ▸ h).symm
    · exact absurd h (by simp)

theorem litRun20_take {w cs : List Char} {n : Nat} (h : litRun20 w cs = some n) :
    cs.take n = w ++ (cs.drop w.length).take (maxRun isAlnum (cs.drop w.length)) := by
  obtain ⟨hw, _, hn⟩ := litRun20_some h
  rw [hn, List.take_add, hw]

theorem litRun20_ext {w cs : List Char} {n : Nat} (h : litRun20 w cs = some n)
    (ds : List Char) : (litRun20 w (cs.take n ++ ds)).isSome = true := by
  obtain ⟨hw, hr, hn⟩ := litRun20_some h
  set r := maxRun isAlnum (cs.drop w.length) with hrdef
  set chunk := (cs.drop w.length).take r with hchunk
  have htake : cs.take n = w ++ chunk := litRun20_take h
  have hchlen : chunk.length = r := by
    rw [hchunk, List.length_take]
    exact Nat.min_eq_left (maxRun_le_length isAlnum _)
  rw [htake, List.append_assoc]
  unfold litRun20
  rw [litP_append]
  simp only [List.drop_left]
  have hsat : ∀ c ∈ chunk, isAlnum c = true := fun c hc =>
    maxRun_take_sat isAlnum (cs.drop w.length) c (hrdef ▸ hc)
  have hge : chunk.length ≤ maxRun isAlnum (chunk ++ ds) :=
    maxRun_append_ge isAlnum hsat ds
  rw [if_pos (by omega)]
  rfl

theorem litRun20_chars {w cs : List Char} {n : Nat} (h : litRun20 w cs = some n) :
    ∀ c ∈ cs.take n, c ∈ w ∨ isAlnum c = true := by
  intro c hc
  rw [litRun20_take h] at hc
  rcases List.mem_append.mp hc with hc' | hc'
  · exact Or.inl hc'
  · exact Or.inr (maxRun_take_sat isAlnum _ c hc')

theorem matchAkia_some {cs : List Char} {n : Nat} (h : matchAkia cs = some n) :
    cs.take 4 = "AKIA".data ∧ ((cs.drop 4).take 16).length = 16 ∧
      ((cs.drop 4).take 16).all isUpDig = true ∧ n = 20 := by
  unfold matchAkia at h
  cases hl : litP "AKIA".data cs with
  | none => rw [hl] at h; exact absurd h (by simp)
  | some a =>
    rw [hl] at h
    obtain ⟨rfl, hw⟩ := litP_some hl
    simp only [] at h
    split at h
    · rename_i hcond
      simp only [Bool.and_eq_true, decide_eq_true_eq] at hcond
      refine ⟨hw, hcond.1, hcond.2, ?_⟩
      exact (Option.some.injEq _ _ ▸ h).symm
    · exact absurd h (by simp)

theorem matchAkia_take {cs : List Char} {n : Nat} (h : matchAkia cs = some n) :
    cs.take n = "AKIA".data ++ (cs.drop 4).take 16 := by
  obtain ⟨hw, _, _, rfl⟩ := matchAkia_some h
  rw [show (20 : Nat) = 4 + 16 from rfl, List.take_add]
  congr 1

theorem matchAkia_ext {cs : List Char} {n : Nat} (h : matchAkia cs = some n)
    (ds : List Char) : (matchAkia (cs.take n ++ ds)).isSome = true := by
  obtain ⟨hw, hlen, hall, rfl⟩ := matchAkia_some h
  set block := (cs.drop 4).take 16 with hblock
  have htake : cs.take 20 = "AKIA".data ++ block := matchAkia_take h
  rw [htake, List.append_assoc]
  unfold matchAkia
  rw [litP_append]
  simp only [List.drop_left]
  rw [List.take_left' hlen]
  rw [if_pos (by simp [hlen, hall])]
  rfl

theorem matchAkia_chars {cs : List Char} {n : Nat} (h : matchAkia cs = some n) :
    ∀ c ∈ cs.take n, c ∈ "AKIA".data ∨ isUpDig c = true := by
  intro c hc
  rw [matchAkia_take h] at hc
  rcases List.mem_append.mp hc with hc' | hc'
  · exact Or.inl hc'
  · right
    have := List.all_eq_true.mp (matchAkia_some h).2.2.1
    exact this c hc'

theorem litCI_some {w : List (Char × Char)} {cs : List Char} {a : Nat}
    (h : litCI w cs = some a) : a = w.length ∧ ciPref w cs = true := by
  unfold litCI at h
  split at h
  · exact ⟨(Option.some.injEq _ _ ▸ h).symm, by assumption⟩
  · exact absurd h (by simp)

theorem isValChar_not_spc {c : Char} (h : isValChar c = true) : isSpc c = false := by
  unfold isValChar at h
  simp only [Bool.and_eq_true, Bool.not_eq_true'] at h
  exact h.1.1

theorem cls4_not_spc {c : Char} (h : cls4 c = true) : isSpc c = false := by
  cases hs : isSpc c with
  | false => rfl
  | true =>
    exfalso
    unfold isSpc at hs
    simp only [Bool.or_eq_true, decide_eq_true_eq] at hs
    rcases hs with ((((rfl | rfl) | rfl) | rfl) | rfl) | rfl <;>
      exact absurd h (by decide)

/-- Take of a sum of four segment lengths splits into four segments. -/
theorem take_seg4 (l : List Char) (i j k e : Nat) :
    l.take (i + j + k + e) =
      l.take i ++ (l.drop i).take j ++ (l.drop (i + j)).take k ++
        (l.drop (i + j + k)).take e := by
  have A := List.take_add l i (j + (k + e))
  have B := List.take_add (l.drop i) j (k + e)
  have C := List.take_add ((l.drop i).drop j) k e
  rw [show i + j + k + e = i + (j + (k + e)) by omega, A, B, C,
    List.drop_drop, List.drop_drop]
  simp [List.append_assoc]

/-- Structure of a successful Bearer match. -/
theorem matchBearer_some {cs : List Char} {n : Nat} (h : matchBearer cs = some n) :
    ciPref bearerCI cs = true ∧
      1 ≤ maxRun isSpc (cs.drop 6) ∧
      1 ≤ maxRun cls4 (cs.drop (6 + maxRun isSpc (cs.drop 6))) ∧
      n = 6 + maxRun isSpc (cs.drop 6) +
          maxRun cls4 (cs.drop (6 + maxRun isSpc (cs.drop 6))) +
          maxRun isEq
            (cs.drop (6 + maxRun isSpc (cs.drop 6) +
              maxRun cls4 (cs.drop (6 + maxRun isSpc (cs.drop 6))))) := by
  unfold matchBearer at h
  cases hl : litCI bearerCI cs with
  | none => rw [hl] at h; exact absurd h (by simp)
  | some a =>
    rw [hl] at h
    obtain ⟨rfl, hci⟩ := litCI_some hl
    have h6 : bearerCI.length = 6 := rfl
    rw [h6] at h
    simp only [] at h
    split at h
    · exact absurd h (by simp)
    · rename_i hs1
      split at h
      · exact absurd h (by simp)
      · rename_i hr
        refine ⟨hci, by omega, by omega, ?_⟩
        exact (Option.some.injEq _ _ ▸ h).symm

theorem matchBearer_take {cs : List Char} {n : Nat} (h : matchBearer cs = some n) :
    cs.take n = cs.take 6 ++ (cs.drop 6).take (maxRun isSpc (cs.drop 6)) ++
      (cs.drop (6 + maxRun isSpc (cs.drop 6))).take
        (maxRun cls4 (cs.drop (6 + maxRun isSpc (cs.drop 6)))) ++
      (cs.drop (6 + maxRun isSpc (cs.drop 6) +
          maxRun cls4 (cs.drop (6 + maxRun isSpc (cs.drop 6))))).take
        (maxRun isEq
          (cs.drop (6 + maxRun isSpc (cs.drop 6) +
            maxRun cls4 (cs.drop (6 + maxRun isSpc (cs.drop 6)))))) := by
  obtain ⟨_, _, _, hn⟩ := matchBearer_some h
  set s1 := maxRun isSpc (cs.drop 6) with hs1
  set r := maxRun cls4 (cs.drop (6 + s1)) with hr
  set e := maxRun isEq (cs.drop (6 + s1 + r)) with he
  rw [hn]
  exact take_seg4 cs 6 s1 r e

theorem matchBearer_ext {cs : List Char} {n : Nat} (h : matchBearer cs = some n)
    (ds : List Char) : (matchBearer (cs.take n ++ ds)).isSome = true := by
  obtain ⟨hci, hs1pos, hrpos, hn⟩ := matchBearer_some h
  set s1 := maxRun isSpc (cs.drop 6) with hs1def
  set r := maxRun cls4 (cs.drop (6 + s1)) with hrdef
  set e := maxRun isEq (cs.drop (6 + s1 + r)) with hedef
  set B := cs.take 6 with hB
  set S := (cs.drop 6).take s1 with hS
  set R := (cs.drop (6 + s1)).take r with hR
  set E := (cs.drop (6 + s1 + r)).take e with hE
  have htake : cs.take n = B ++ S ++ R ++ E := matchBearer_take h
  have hSsat : ∀ c ∈ S, isSpc c = true := fun c hc => maxRun_take_sat isSpc _ c hc
  have hRsat : ∀ c ∈ R, cls4 c = true := fun c hc => maxRun_take_sat cls4 _ c hc
  have hEsat : ∀ c ∈ E, isEq c = true := fun c hc =>
    maxRun_take_sat _ _ c hc
  have hSlen : S.length = s1 := by
    rw [hS, List.length_take]
    exact Nat.min_eq_left (maxRun_le_length _ _)
  have hRlen : R.length = r := by
    rw [hR, List.length_take]
    exact Nat.min_eq_left (maxRun_le_length _ _)
  obtain ⟨c0, R', hR'⟩ := List.exists_cons_of_ne_nil
    (show R ≠ [] by intro hRnil; rw [hRnil] at hRlen; simp at hRlen; omega)
  have hc0 : cls4 c0 = true := hRsat c0 (hR' ▸ List.mem_cons_self _ _)
  rw [htake]
  unfold matchBearer
  have hlit : litCI bearerCI (B ++ S ++ R ++ E ++ ds) = some 6 := by
    unfold litCI
    have : ciPref bearerCI (B ++ (S ++ R ++ E ++ ds)) = true := by
      have := ciPref_append_take hci (S ++ R ++ E ++ ds)
      simpa [hB] using this
    rw [show B ++ S ++ R ++ E ++ ds = B ++ (S ++ R ++ E ++ ds) by
      simp [List.append_assoc]]
    rw [this]
    rfl
  rw [hlit]
  simp only []
  have hd6 : (B ++ S ++ R ++ E ++ ds).drop 6 = S ++ (R ++ E ++ ds) := by
    rw [show B ++ S ++ R ++ E ++ ds = B ++ (S ++ (R ++ E ++ ds)) by
      simp [List.append_assoc]]
    rw [show (6 : Nat) = B.length by rw [hB]; rw [List.length_take]; exact
      (Nat.min_eq_left (by
        have := ciPref_length hci
        have h6 : bearerCI.length = 6 := rfl
        omega)).symm]
    exact List.drop_left B _
  rw [hd6]
  have hspc : maxRun isSpc (S ++ (R ++ E ++ ds)) = s1 := by
    rw [maxRun_append_exact isSpc hSsat]
    · exact hSlen
    · intro c hc
      rw [hR'] at hc
      simp only [List.cons_append, List.head?_cons, Option.some.injEq] at hc
      rw [← hc]
      exact cls4_not_spc hc0
  rw [hspc]
  rw [if_neg (by omega)]
  have hd6s1 : (S ++ (R ++ E ++ ds)).drop s1 = R ++ E ++ ds := by
    rw [show s1 = S.length from hSlen.symm]
    exact List.drop_left S _
  have hd2 : (B ++ S ++ R ++ E ++ ds).drop (6 + s1) = R ++ E ++ ds := by
    rw [← List.drop_drop, hd6, hd6s1]
  rw [hd2]
  have hclsge : r ≤ maxRun cls4 (R ++ (E ++ ds)) := by
    have := maxRun_append_ge cls4 hRsat (E ++ ds)
    rwa [hRlen] at this
  rw [show R ++ E ++ ds = R ++ (E ++ ds) from by simp [List.append_assoc]]
  rw [if_neg (by omega)]
  rfl

theorem matchBearer_chars {cs : List Char} {n : Nat} (h : matchBearer cs = some n) :
    ∀ c ∈ cs.take n,
      (∃ pr ∈ bearerCI, c = pr.1 ∨ c = pr.2) ∨ isSpc c = true ∨ cls4 c = true ∨
        c = '=' := by
  intro c hc
  rw [matchBearer_take h] at hc
  obtain ⟨hci, _, _, _⟩ := matchBearer_some h
  rcases List.mem_append.mp hc with hc' | hc'
  · rcases List.mem_append.mp hc' with hc'' | hc''
    · rcases List.mem_append.mp hc'' with hc3 | hc3
      · left
        have h6 : (6 : Nat) = bearerCI.length := rfl
        rw [h6] at hc3
        exact ciPref_chars hci c hc3
      · exact Or.inr (Or.inl (maxRun_take_sat isSpc _ c hc3))
    · exact Or.inr (Or.inr (Or.inl (maxRun_take_sat cls4 _ c hc'')))
  · right; right; right
    have := maxRun_take_sat isEq _ c hc'
    simpa [isEq] using this

/-- Take of a sum of six segment lengths splits into six segments. -/
theorem take_seg6 (l : List Char) (i j k p q e : Nat) :
    l.take (i + j + k + p + q + e) =
      l.take i ++ (l.drop i).take j ++ (l.drop (i + j)).take k ++
        (l.drop (i + j + k)).take p ++ (l.drop (i + j + k + p)).take q ++
        (l.drop (i + j + k + p + q)).take e := by
  have A := List.take_add l i (j + (k + (p + (q + e))))
  have B := List.take_add (l.drop i) j (k + (p + (q + e)))
  have C := List.take_add ((l.drop i).drop j) k (p + (q + e))
  have D := List.take_add (((l.drop i).drop j).drop k) p (q + e)
  have E := List.take_add ((((l.drop i).drop j).drop k).drop p) q e
  rw [show i + j + k + p + q + e = i + (j + (k + (p + (q + e)))) by omega,
    A, B, C, D, E]
  simp only [List.drop_drop]
  simp [List.append_assoc]

/-- Structure of a successful match of the fixed api-key part.  The existential
variables are the optional-separator width and the two space-run widths. -/
theorem matchPre6_some {cs : List Char} {a : Nat} (h : matchPre6 cs = some a) :
    ∃ o s1 s2, o = optP isDash (cs.drop 3) ∧
      ciPref apiCI cs = true ∧
      ciPref keyCI (cs.drop (3 + o)) = true ∧
      s1 = maxRun isSpc (cs.drop (3 + o + 3)) ∧
      (cs.drop (3 + o + 3 + s1)).take 1 = ['='] ∧
      s2 = maxRun isSpc (cs.drop (3 + o + 3 + s1 + 1)) ∧
      a = 3 + o + 3 + s1 + 1 + s2 ∧ a ≤ cs.length := by
  unfold matchPre6 at h
  cases hl : litCI apiCI cs with
  | none => rw [hl] at h; exact absurd h (by simp)
  | some a3 =>
    rw [hl] at h
    obtain ⟨ha3, hciA⟩ := litCI_some hl
    subst ha3
    rw [show apiCI.length = 3 from rfl] at h
    simp only [] at h
    cases hk : litCI keyCI (cs.drop (3 + optP isDash (cs.drop 3))) with
    | none => rw [hk] at h; exact absurd h (by simp)
    | some k3 =>
      rw [hk] at h
      obtain ⟨hk3, hciK⟩ := litCI_some hk
      subst hk3
      rw [show keyCI.length = 3 from rfl] at h
      simp only [] at h
      cases he : litP ['=']
          (cs.drop (3 + optP isDash (cs.drop 3) + 3 +
            maxRun isSpc (cs.drop (3 + optP isDash (cs.drop 3) + 3)))) with
      | none => rw [he] at h; exact absurd h (by simp)
      | some e1 =>
        rw [he] at h
        obtain ⟨he1, heq⟩ := litP_some he
        subst he1
        rw [show (['='] : List Char).length = 1 from rfl] at h
        simp only [] at h
        set o := optP isDash (cs.drop 3) with ho
        set s1 := maxRun isSpc (cs.drop (3 + o + 3)) with hs1
        set s2 := maxRun isSpc (cs.drop (3 + o + 3 + s1 + 1)) with hs2
        refine ⟨o, s1, s2, rfl, hciA, hciK, rfl, heq, rfl, ?_, ?_⟩
        · exact (Option.some.injEq _ _ ▸ h).symm
        · have hlenK : (3 : Nat) ≤ (cs.drop (3 + o)).length := by
            have := ciPref_length hciK
            simpa using this
          have hlen1 : (1 : Nat) ≤ (cs.drop (3 + o + 3 + s1)).length := by
            have := congrArg List.length heq
            simp only [List.length_take, List.length_singleton] at this
            omega
          have hs1le : s1 ≤ (cs.drop (3 + o + 3)).length := hs1 ▸ maxRun_le_length _ _
          have hs2le : s2 ≤ (cs.drop (3 + o + 3 + s1 + 1)).length :=
            hs2 ▸ maxRun_le_length _ _
          have h1 := (Option.some.injEq _ _ ▸ h)
          simp only [List.length_drop] at hlenK hlen1 hs1le hs2le
          omega

/-- Decomposition of the matched prefix of the fixed api-key part into its six
segments. -/
theorem matchPre6_take {cs : List Char} {a : Nat} (h : matchPre6 cs = some a) :
    ∃ o s1 s2, o = optP isDash (cs.drop 3) ∧
      s1 = maxRun isSpc (cs.drop (3 + o + 3)) ∧
      s2 = maxRun isSpc (cs.drop (3 + o + 3 + s1 + 1)) ∧
      a = 3 + o + 3 + s1 + 1 + s2 ∧
      cs.take a = cs.take 3 ++ (cs.drop 3).take o ++ (cs.drop (3 + o)).take 3 ++
        (cs.drop (3 + o + 3)).take s1 ++ ['='] ++
        (cs.drop (3 + o + 3 + s1 + 1)).take s2 := by
  obtain ⟨o, s1, s2, ho, _, _, hs1, heq, hs2, ha, _⟩ := matchPre6_some h
  refine ⟨o, s1, s2, ho, hs1, hs2, ha, ?_⟩
  rw [ha, take_seg6 cs 3 o 3 s1 1 s2, heq]

theorem matchApiKey_some {cs : List Char} {n : Nat} (h : matchApiKey cs = some n) :
    ∃ a, matchPre6 cs = some a ∧ 1 ≤ maxRun isValChar (cs.drop a) ∧
      n = a + maxRun isValChar (cs.drop a) := by
  unfold matchApiKey at h
  cases hp : matchPre6 cs with
  | none => rw [hp] at h; exact absurd h (by simp)
  | some a =>
    rw [hp] at h
    simp only [] at h
    split at h
    · exact absurd h (by simp)
    · rename_i hv
      refine ⟨a, rfl, by omega, ?_⟩
      have := (Option.some.injEq _ _ ▸ h).symm
      omega

/-- Evaluation of the fixed api-key part on an explicit six-segment string
followed by arbitrary text whose head is not a space: the match consumes
exactly the six segments. -/
theorem matchPre6_eval {A O K S1 S2 ds : List Char} {o s1 s2 : Nat} {c0 : Char}
    (hciA : ciPref apiCI A = true) (hAlen : A.length = 3)
    (hO : (o = 0 ∧ O = []) ∨ (∃ d, o = 1 ∧ O = [d] ∧ isDash d = true))
    (hciK : ciPref keyCI K = true) (hKlen : K.length = 3)
    (hK0 : ∃ k0 K', K = k0 :: K' ∧ isDash k0 = false)
    (hS1 : ∀ c ∈ S1, isSpc c = true) (hS1len : S1.length = s1)
    (hS2 : ∀ c ∈ S2, isSpc c = true) (hS2len : S2.length = s2)
    (hd : ds.head? = some c0) (hv : isSpc c0 = false) :
    matchPre6 (A ++ (O ++ (K ++ (S1 ++ (['='] ++ (S2 ++ ds)))))) =
      some (3 + o + 3 + s1 + 1 + s2) := by
  have hOlen : O.length = o := by
    rcases hO with ⟨rfl, rfl⟩ | ⟨d, rfl, rfl, _⟩ <;> simp
  obtain ⟨k0, K', hKc, hk0⟩ := hK0
  set r2 := K ++ (S1 ++ (['='] ++ (S2 ++ ds))) with hr2
  set r3 := S1 ++ (['='] ++ (S2 ++ ds)) with hr3
  set r5 := S2 ++ ds with hr5
  set BIG := A ++ (O ++ r2) with hBIG
  have hdrop3 : BIG.drop 3 = O ++ r2 := by
    rw [hBIG, ← hAlen]
    exact List.drop_left A _
  have hdrop3o : BIG.drop (3 + o) = r2 := by
    rw [hBIG, show A ++ (O ++ r2) = (A ++ O) ++ r2 from
      (List.append_assoc A O r2).symm,
      show 3 + o = (A ++ O).length from by simp [hAlen, hOlen]]
    exact List.drop_left _ _
  have hdrop6 : BIG.drop (3 + o + 3) = r3 := by
    rw [hBIG, hr2, show A ++ (O ++ (K ++ r3)) = (A ++ O ++ K) ++ r3 from by
      simp [List.append_assoc],
      show 3 + o + 3 = (A ++ O ++ K).length from by
        simp [hAlen, hOlen, hKlen]
        try omega]
    exact List.drop_left _ _
  have hdrops1 : BIG.drop (3 + o + 3 + s1) = ['='] ++ r5 := by
    rw [hBIG, hr2, hr3, show A ++ (O ++ (K ++ (S1 ++ (['='] ++ r5)))) =
        (A ++ O ++ K ++ S1) ++ (['='] ++ r5) from by simp [List.append_assoc],
      show 3 + o + 3 + s1 = (A ++ O ++ K ++ S1).length from by
        simp [hAlen, hOlen, hKlen, hS1len]
        try omega]
    exact List.drop_left _ _
  have hdrops2 : BIG.drop (3 + o + 3 + s1 + 1) = r5 := by
    rw [hBIG, hr2, hr3, show A ++ (O ++ (K ++ (S1 ++ (['='] ++ r5)))) =
        (A ++ O ++ K ++ S1 ++ ['=']) ++ r5 from by simp [List.append_assoc],
      show 3 + o + 3 + s1 + 1 = (A ++ O ++ K ++ S1 ++ ['=']).length from by
        simp [hAlen, hOlen, hKlen, hS1len]
        try omega]
    exact List.drop_left _ _
  have hciA' : ciPref apiCI BIG = true := by
    have := ciPref_append_take hciA (O ++ r2)
    rwa [show apiCI.length = 3 from rfl, ← hAlen, List.take_length] at this
  have hlitA : litCI apiCI BIG = some 3 := by
    unfold litCI
    rw [hciA']
    rfl
  have hopt : optP isDash (O ++ r2) = o := by
    rcases hO with ⟨rfl, rfl⟩ | ⟨d, rfl, rfl, hdash⟩
    · rw [List.nil_append, hr2, hKc]
      simp [optP, hk0]
    · simp [optP, hdash]
  have hciK' : ciPref keyCI r2 = true := by
    have := ciPref_append_take hciK r3
    rwa [show keyCI.length = 3 from rfl, ← hKlen, List.take_length, ← hr2] at this
  have hlitK : litCI keyCI r2 = some 3 := by
    unfold litCI
    rw [hciK']
    rfl
  have hrun1 : maxRun isSpc r3 = s1 := by
    rw [hr3, maxRun_append_exact isSpc hS1 (fun c hc => by
      simp only [List.cons_append, List.head?_cons, Option.some.injEq] at hc
      rw [← hc]; decide)]
    exact hS1len
  have hlitE : litP ['='] (['='] ++ r5) = some 1 := litP_append ['='] r5
  have hrun2 : maxRun isSpc r5 = s2 := by
    rw [hr5, maxRun_append_exact isSpc hS2 (fun c hc => by
      rw [hd] at hc
      have hcc : c0 = c := Option.some_inj.mp hc
      rw [← hcc]
      exact hv)]
    exact hS2len
  show matchPre6 BIG = _
  unfold matchPre6
  rw [hlitA]
  simp only []
  rw [hdrop3, hopt, hdrop3o, hlitK]
  simp only []
  rw [hdrop6, hrun1, hdrops1, hlitE]
  simp only []
  rw [hdrops2, hrun2]

theorem maxRun_take_sat_le (p : Char → Bool) :
    ∀ (ls : List Char) (k : Nat), k ≤ maxRun p ls →
      ∀ c ∈ ls.take k, p c = true := by
  intro ls k hk c hc
  have : c ∈ ls.take (maxRun p ls) := by
    have h1 : ls.take k = (ls.take (maxRun p ls)).take k := by
      rw [List.take_take, Nat.min_eq_left hk]
    rw [h1] at hc
    exact List.IsPrefix.mem hc (List.take_prefix _ _)
  exact maxRun_take_sat p ls c this

/-- The hypotheses of `matchPre6_eval`, extracted from a successful match. -/
theorem matchPre6_segs {cs : List Char} {a : Nat} (h : matchPre6 cs = some a) :
    ∃ o s1 s2,
      o = optP isDash (cs.drop 3) ∧
      s1 = maxRun isSpc (cs.drop (3 + o + 3)) ∧
      s2 = maxRun isSpc (cs.drop (3 + o + 3 + s1 + 1)) ∧
      a = 3 + o + 3 + s1 + 1 + s2 ∧ a ≤ cs.length ∧
      cs.take a = cs.take 3 ++ (cs.drop 3).take o ++ (cs.drop (3 + o)).take 3 ++
        (cs.drop (3 + o + 3)).take s1 ++ ['='] ++
        (cs.drop (3 + o + 3 + s1 + 1)).take s2 ∧
      ciPref apiCI (cs.take 3) = true ∧ (cs.take 3).length = 3 ∧
      ((o = 0 ∧ (cs.drop 3).take o = []) ∨
        (∃ d, o = 1 ∧ (cs.drop 3).take o = [d] ∧ isDash d = true)) ∧
      ciPref keyCI ((cs.drop (3 + o)).take 3) = true ∧
      ((cs.drop (3 + o)).take 3).length = 3 ∧
      (∃ k0 K', (cs.drop (3 + o)).take 3 = k0 :: K' ∧ isDash k0 = false) ∧
      (∀ c ∈ (cs.drop (3 + o + 3)).take s1, isSpc c = true) ∧
      ((cs.drop (3 + o + 3)).take s1).length = s1 ∧
      (∀ c ∈ (cs.drop (3 + o + 3 + s1 + 1)).take s2, isSpc c = true) ∧
      ((cs.drop (3 + o + 3 + s1 + 1)).take s2).length = s2 := by
  obtain ⟨o, s1, s2, ho, hciA, hciK, hs1, heq, hs2, ha, halen⟩ := matchPre6_some h
  have htake : cs.take a = cs.take 3 ++ (cs.drop 3).take o ++
      (cs.drop (3 + o)).take 3 ++ (cs.drop (3 + o + 3)).take s1 ++ ['='] ++
      (cs.drop (3 + o + 3 + s1 + 1)).take s2 := by
    rw [ha, take_seg6 cs 3 o 3 s1 1 s2, heq]
  have hciA3 : ciPref apiCI (cs.take 3) = true := by
    have := ciPref_append_take hciA []
    rwa [show apiCI.length = 3 from rfl, List.append_nil] at this
  have hlenA : (cs.take 3).length = 3 := by
    have h3 : (3 : Nat) ≤ cs.length := by
      have := ciPref_length hciA
      simpa using this
    simp [h3]
  have hOsh : (o = 0 ∧ (cs.drop 3).take o = []) ∨
      (∃ d, o = 1 ∧ (cs.drop 3).take o = [d] ∧ isDash d = true) := by
    cases hcd : cs.drop 3 with
    | nil =>
      left
      constructor
      · rw [ho, hcd]; rfl
      · simp
    | cons d rest =>
      by_cases hdash : isDash d = true
      · right
        refine ⟨d, ?_, ?_, hdash⟩
        · rw [ho, hcd]; simp [optP, hdash]
        · have : o = 1 := by rw [ho, hcd]; simp [optP, hdash]
          rw [this]
          rfl
      · left
        have ho0 : o = 0 := by
          rw [ho, hcd]
          simp [optP, Bool.eq_false_iff.mpr hdash]
        constructor
        · exact ho0
        · rw [ho0]; rfl
  have hciK3 : ciPref keyCI ((cs.drop (3 + o)).take 3) = true := by
    have := ciPref_append_take hciK []
    rwa [show keyCI.length = 3 from rfl, List.append_nil] at this
  have hlenK : ((cs.drop (3 + o)).take 3).length = 3 := by
    have h3 : (3 : Nat) ≤ (cs.drop (3 + o)).length := by
      have := ciPref_length hciK
      simpa using this
    simp only [List.length_take]
    omega
  have hK0 : ∃ k0 K', (cs.drop (3 + o)).take 3 = k0 :: K' ∧ isDash k0 = false := by
    obtain ⟨k0, rest, hk0eq, hk0or⟩ := ciPref_head hciK
    refine ⟨k0, rest.take 2, ?_, ?_⟩
    · rw [hk0eq]; rfl
    · rcases hk0or with h' | h' <;> rw [h'] <;> rfl
  exact ⟨o, s1, s2, ho, hs1, hs2, ha, halen, htake, hciA3, hlenA, hOsh, hciK3,
    hlenK, hK0,
    fun c hc => maxRun_take_sat_le isSpc _ s1 (le_of_eq hs1) c hc,
    by simp only [List.length_take]; exact Nat.min_eq_left (hs1 ▸ maxRun_le_length _ _),
    fun c hc => maxRun_take_sat_le isSpc _ s2 (le_of_eq hs2) c hc,
    by simp only [List.length_take]; exact Nat.min_eq_left (hs2 ▸ maxRun_le_length _ _)⟩

/-- The fixed part of an api-key match contains no bracket characters. -/
theorem matchPre6_no_bracket {cs : List Char} {a : Nat} (h : matchPre6 cs = some a) :
    ∀ c ∈ cs.take a, c ≠ '[' ∧ c ≠ ']' := by
  obtain ⟨o, s1, s2, _, _, _, _, _, htake, hciA3, _, hOsh, hciK3, _, _, hS1, _,
    hS2, _⟩ := matchPre6_segs h
  intro c hc
  rw [htake] at hc
  have hchar : (∃ pr ∈ apiCI, c = pr.1 ∨ c = pr.2) ∨ isDash c = true ∨
      (∃ pr ∈ keyCI, c = pr.1 ∨ c = pr.2) ∨ isSpc c = true ∨ c = '=' := by
    rcases List.mem_append.mp hc with hc1 | hc1
    · rcases List.mem_append.mp hc1 with hc2 | hc2
      · rcases List.mem_append.mp hc2 with hc3 | hc3
        · rcases List.mem_append.mp hc3 with hc4 | hc4
          · rcases List.mem_append.mp hc4 with hc5 | hc5
            · left
              have := ciPref_chars hciA3 c
              rw [show apiCI.length = 3 from rfl] at this
              have hA : (cs.take 3).take 3 = cs.take 3 := by
                simp
              exact this (by rw [hA]; exact hc5)
            · right; left
              rcases hOsh with ⟨_, hO⟩ | ⟨d, _, hO, hdash⟩
              · rw [hO] at hc5; simp at hc5
              · rw [hO] at hc5
                simp only [List.mem_singleton] at hc5
                rw [hc5]; exact hdash
          · right; right; left
            have := ciPref_chars hciK3 c
            rw [show keyCI.length = 3 from rfl] at this
            have hK : ((cs.drop (3 + o)).take 3).take 3 = (cs.drop (3 + o)).take 3 := by
              simp
            exact this (by rw [hK]; exact hc4)
        · exact Or.inr (Or.inr (Or.inr (Or.inl (hS1 c hc3))))
      · right; right; right; right
        simpa using hc2
    · exact Or.inr (Or.inr (Or.inr (Or.inl (hS2 c hc1))))
  constructor
  · intro hcb
    subst hcb
    rcases hchar with h' | h' | h' | h' | h' <;> revert h' <;> decide
  · intro hcb
    subst hcb
    rcases hchar with h' | h' | h' | h' | h' <;> revert h' <;> decide

/-- The first character of any api-key match site is a letter `a`, hence a
valid non-space value character. -/
theorem matchApiKey_head {ds : List Char} {k : Nat} (h : matchApiKey ds = some k) :
    ∃ c0 ds', ds = c0 :: ds' ∧ isValChar c0 = true ∧ isSpc c0 = false := by
  obtain ⟨a, hp, _, _⟩ := matchApiKey_some h
  obtain ⟨o, s1, s2, _, hciA, _⟩ := matchPre6_some hp
  obtain ⟨c0, ds', hds, hor⟩ := ciPref_head hciA
  refine ⟨c0, ds', hds, ?_, ?_⟩ <;> rcases hor with h' | h' <;> rw [h'] <;> rfl

/-- Replacing the text after a match of the fixed api-key part with anything
whose first character is not a space leaves the match (and its width) intact. -/
theorem matchPre6_stable {cs : List Char} {a : Nat} (hp : matchPre6 cs = some a)
    {tail : List Char} {c0 : Char} (hd : tail.head? = some c0)
    (hv : isSpc c0 = false) : matchPre6 (cs.take a ++ tail) = some a := by
  obtain ⟨o, s1, s2, _, _, _, ha, _, htake, hciA3, hlenA, hOsh, hciK3, hlenK,
    hK0, hS1sat, hS1len, hS2sat, hS2len⟩ := matchPre6_segs hp
  have heval := matchPre6_eval hciA3 hlenA hOsh hciK3 hlenK hK0 hS1sat hS1len
    hS2sat hS2len hd hv
  rw [htake, ha]
  rw [show cs.take 3 ++ (cs.drop 3).take o ++ (cs.drop (3 + o)).take 3 ++
      (cs.drop (3 + o + 3)).take s1 ++ ['='] ++
      (cs.drop (3 + o + 3 + s1 + 1)).take s2 ++ tail =
    cs.take 3 ++ ((cs.drop 3).take o ++ ((cs.drop (3 + o)).take 3 ++
      ((cs.drop (3 + o + 3)).take s1 ++ (['='] ++
        ((cs.drop (3 + o + 3 + s1 + 1)).take s2 ++ tail))))) from by
    simp [List.append_assoc]]
  exact heval

theorem matchApiKey_ext {cs : List Char} {n : Nat} (h : matchApiKey cs = some n)
    (ds : List Char) : (matchApiKey (cs.take n ++ ds)).isSome = true := by
  obtain ⟨a, hp, hv1, hn⟩ := matchApiKey_some h
  obtain ⟨_, _, _, _, _, _, _, _, _, _, halen⟩ := matchPre6_some hp
  set v := maxRun isValChar (cs.drop a) with hvdef
  set V := (cs.drop a).take v with hV
  have hVlen : V.length = v := by
    rw [hV, List.length_take]
    exact Nat.min_eq_left (maxRun_le_length _ _)
  have hVsat : ∀ c ∈ V, isValChar c = true := fun c hc =>
    maxRun_take_sat isValChar _ c hc
  obtain ⟨c0, V', hVc⟩ := List.exists_cons_of_ne_nil
    (show V ≠ [] by intro hVnil; rw [hVnil] at hVlen; simp at hVlen; omega)
  have hc0v : isValChar c0 = true := hVsat c0 (hVc ▸ List.mem_cons_self _ _)
  have htaken : cs.take n = cs.take a ++ V := by rw [hn, List.take_add]
  rw [htaken, List.append_assoc]
  have hhd : (V ++ ds).head? = some c0 := by rw [hVc]; rfl
  have hstab := matchPre6_stable hp hhd (isValChar_not_spc hc0v)
  unfold matchApiKey
  rw [hstab]
  simp only []
  rw [List.drop_left' (List.length_take_of_le halen)]
  have hpos : 1 ≤ maxRun isValChar (V ++ ds) := by
    have := maxRun_append_ge isValChar hVsat ds
    omega
  rw [if_neg (by omega)]
  rfl

theorem matchApiKey_hbr {cs : List Char} {n : Nat} (h : matchApiKey cs = some n) :
    ∀ (r : Nat) (ds : List Char), 0 < r → r < (cs.take n).length →
      (cs.take n)[r]? = some '[' → (matchApiKey ds).isSome = true →
      (matchApiKey ((cs.take n).take r ++ ds)).isSome = true := by
  intro r ds hr0 hrlt hget hsite
  obtain ⟨a, hp, hv1, hn⟩ := matchApiKey_some h
  obtain ⟨_, _, _, _, _, _, _, _, _, _, halen⟩ := matchPre6_some hp
  set v := maxRun isValChar (cs.drop a) with hvdef
  obtain ⟨k', hsome⟩ := Option.isSome_iff_exists.mp hsite
  obtain ⟨c0, ds', rfl, hc0v, hc0s⟩ := matchApiKey_head hsome
  have htlen : (cs.take n).length ≤ n := by
    simp only [List.length_take]
    exact Nat.min_le_left _ _
  have hrn : r < n := lt_of_lt_of_le hrlt htlen
  have hget' : cs[r]? = some '[' := by
    rw [List.getElem?_take, if_pos hrn] at hget
    exact hget
  have hra : a ≤ r := by
    by_contra hlt
    push_neg at hlt
    have hmem : '[' ∈ cs.take a := by
      have hg1 : (cs.take a)[r]? = some '[' := by
        rw [List.getElem?_take, if_pos hlt, hget']
      have hg : (cs.take a).get? r = some '[' := by
        simpa [List.get?_eq_getElem?] using hg1
      exact List.get?_mem hg
    exact (matchPre6_no_bracket hp '[' hmem).1 rfl
  have htr : (cs.take n).take r = cs.take r := by
    rw [List.take_take, Nat.min_eq_left (le_of_lt hrn)]
  set mid := (cs.drop a).take (r - a) with hmid
  have hsplit : cs.take r = cs.take a ++ mid := by
    rw [show r = a + (r - a) by omega, List.take_add]
  have hrv : r - a ≤ v := by omega
  have hmidsat : ∀ c ∈ mid, isValChar c = true :=
    maxRun_take_sat_le isValChar _ (r - a) hrv
  obtain ⟨ch, hch, hchs⟩ : ∃ ch, (mid ++ c0 :: ds').head? = some ch ∧
      isSpc ch = false := by
    cases hmc : mid with
    | nil => exact ⟨c0, by simp, hc0s⟩
    | cons c1 mid' =>
      refine ⟨c1, by simp, ?_⟩
      exact isValChar_not_spc (hmidsat c1 (hmc ▸ List.mem_cons_self _ _))
  have hstab := matchPre6_stable hp hch hchs
  rw [htr, hsplit, List.append_assoc]
  unfold matchApiKey
  rw [hstab]
  simp only []
  rw [List.drop_left' (List.length_take_of_le halen)]
  have hpos : 1 ≤ maxRun isValChar (mid ++ c0 :: ds') := by
    cases hmc : mid with
    | nil =>
      simp only [hmc, List.nil_append]
      rw [show maxRun isValChar (c0 :: ds') = maxRun isValChar ds' + 1 from by
        simp [maxRun, hc0v]]
      omega
    | cons c1 mid' =>
      have := maxRun_append_ge isValChar hmidsat (c0 :: ds')
      rw [hmc] at this
      simp only [List.length_cons] at this
      omega
  rw [if_neg (by omega)]
  rfl

/-- The side conditions about the sentinel under which the scan-kill argument
applies to a matched string `t`. -/
def KillHyp (m : List Char → Option Nat) (t : List Char) : Prop :=
  t ≠ [] ∧ (∀ ds, (m (t ++ ds)).isSome = true) ∧
  ¬ t <+: REDSTR ∧ ¬ REDSTR <+: t ∧ ¬ t <:+: REDSTR ∧
  (∀ x, x ≠ [] → x <:+ REDSTR → ¬ x <+: t) ∧
  (∀ r ds, 0 < r → r < t.length → t[r]? = some '[' →
    (m ds).isSome = true → (m (t.take r ++ ds)).isSome = true)

theorem scan_kill_of_killHyp {m : List Char → Option Nat} {t : List Char}
    (hk : KillHyp m t) : ∀ (cs : List Char), ¬ t <:+: subAux m cs :=
  scan_kill hk.1 hk.2.1 hk.2.2.1 hk.2.2.2.1 hk.2.2.2.2.1 hk.2.2.2.2.2.1
    hk.2.2.2.2.2.2

/-- The four sentinel-safety conditions follow from the first two characters
of `t` not appearing as adjacent characters anywhere in the sentinel. -/
theorem redsafe_of_two {t : List Char} {c0 c1 : Char} (h2 : t.take 2 = [c0, c1])
    (hc0 : c0 ≠ '[' ∧ c0 ≠ ']')
    (hpair : ∀ i, i < 9 → ¬ (REDSTR[i]? = some c0 ∧ REDSTR[i + 1]? = some c1)) :
    ¬ t <+: REDSTR ∧ ¬ REDSTR <+: t ∧ ¬ t <:+: REDSTR ∧
      ∀ x, x ≠ [] → x <:+ REDSTR → ¬ x <+: t := by
  have hts : t = c0 :: c1 :: t.drop 2 := by
    conv_lhs => rw [← List.take_append_drop 2 t]
    rw [h2]
    rfl
  refine ⟨?_, ?_, ?_, ?_⟩
  · intro hpre
    rw [hts, REDSTR_cons, List.cons_prefix_cons] at hpre
    exact hc0.1 hpre.1
  · intro hpre
    rw [hts, REDSTR_cons, List.cons_prefix_cons] at hpre
    exact hc0.1 hpre.1.symm
  · rintro ⟨s, u, hsu⟩
    have hlen : s.length + t.length + u.length = 10 := by
      have := congrArg List.length hsu
      simp [REDSTR] at this
      omega
    have htl : 2 ≤ t.length := by rw [hts]; simp
    have hi9 : s.length < 9 := by omega
    apply hpair s.length hi9
    constructor
    · have hidx : REDSTR[s.length]? = (t ++ u)[0]? := by
        rw [← hsu, List.append_assoc, List.getElem?_append_right (le_refl _)]
        simp
      rw [hidx, hts]
      simp
    · have hidx : REDSTR[s.length + 1]? = (t ++ u)[1]? := by
        rw [← hsu, List.append_assoc,
          List.getElem?_append_right (by omega : s.length ≤ s.length + 1)]
        simp
      rw [hidx, hts]
      simp
  · intro x hx hxsuf hxpre
    obtain ⟨s, hs⟩ := hxsuf
    obtain ⟨d, x', hdx⟩ := List.exists_cons_of_ne_nil hx
    subst hdx
    have hlen : s.length + (d :: x').length = 10 := by
      have := congrArg List.length hs
      simp [REDSTR] at this
      simp
      omega
    rw [hts, List.cons_prefix_cons] at hxpre
    obtain ⟨hd, hxrest⟩ := hxpre
    cases x' with
    | nil =>
      have h9 : s.length = 9 := by simp at hlen; omega
      have hval : REDSTR[(9 : Nat)]? = some d := by
        rw [← hs, ← h9, List.getElem?_append_right (le_refl _)]
        simp
      have h99 : REDSTR[(9 : Nat)]? = some ']' := by decide
      rw [h99] at hval
      have hcb : c0 = ']' := by
        rw [← hd]
        exact (Option.some_inj.mp hval).symm
      exact hc0.2 hcb
    | cons e x'' =>
      rw [List.cons_prefix_cons] at hxrest
      obtain ⟨he, _⟩ := hxrest
      have hi9 : s.length < 9 := by simp at hlen; omega
      apply hpair s.length hi9
      constructor
      · have hidx : REDSTR[s.length]? = (d :: e :: x'')[0]? := by
          rw [← hs, List.getElem?_append_right (le_refl _)]
          simp
        rw [hidx]
        simp [hd]
      · have hidx : REDSTR[s.length + 1]? = (d :: e :: x'')[1]? := by
          rw [← hs, List.getElem?_append_right (by omega : s.length ≤ s.length + 1)]
          simp
        rw [hidx]
        simp [he]

/-- First two characters of a string accepted by a two-or-more character
case-insensitive literal. -/
theorem ciPref_two {p q : Char × Char} {w : List (Char × Char)} {cs : List Char}
    (h : ciPref (p :: q :: w) cs = true) :
    ∃ c0 c1 rest, cs = c0 :: c1 :: rest ∧ (c0 = p.1 ∨ c0 = p.2) ∧
      (c1 = q.1 ∨ c1 = q.2) := by
  obtain ⟨c0, cs', rfl, h0⟩ := ciPref_head h
  simp only [ciPref, Bool.and_eq_true] at h
  obtain ⟨c1, cs'', rfl, h1⟩ := ciPref_head h.2
  exact ⟨c0, c1, cs'', rfl, h0, h1⟩

theorem killhyp_litRun20 {w cs : List Char} {n : Nat} {c0 c1 : Char}
    (h : litRun20 w cs = some n)
    (hw2 : w.take 2 = [c0, c1]) (hwlen : 2 ≤ w.length)
    (hc0 : c0 ≠ '[' ∧ c0 ≠ ']')
    (hpair : ∀ i, i < 9 → ¬ (REDSTR[i]? = some c0 ∧ REDSTR[i + 1]? = some c1))
    (hwb : '[' ∉ w) :
    KillHyp (litRun20 w) (cs.take n) := by
  obtain ⟨hw, hr, hn⟩ := litRun20_some h
  have ht2 : (cs.take n).take 2 = [c0, c1] := by
    rw [List.take_take, Nat.min_eq_left (by omega : 2 ≤ n)]
    have h22 : cs.take 2 = (cs.take w.length).take 2 := by
      rw [List.take_take, Nat.min_eq_left hwlen]
    rw [h22, hw, hw2]
  have hrs := redsafe_of_two ht2 hc0 hpair
  refine ⟨?_, fun ds => litRun20_ext h ds, hrs.1, hrs.2.1, hrs.2.2.1,
    hrs.2.2.2, ?_⟩
  · intro hnil
    rw [hnil] at ht2
    simp at ht2
  · intro r ds _ hrlt hget _
    exfalso
    have hmem : '[' ∈ cs.take n := by
      have hg : (cs.take n).get? r = some '[' := by
        simpa [List.get?_eq_getElem?] using hget
      exact List.get?_mem hg
    rcases litRun20_chars h '[' hmem with hin | hal
    · exact hwb hin
    · exact absurd hal (by decide)

theorem killhyp_matchAkia {cs : List Char} {n : Nat} (h : matchAkia cs = some n) :
    KillHyp matchAkia (cs.take n) := by
  obtain ⟨hw, hlen16, hall, rfl⟩ := matchAkia_some h
  have ht2 : (cs.take 20).take 2 = ['A', 'K'] := by
    rw [List.take_take, Nat.min_eq_left (by omega : (2 : Nat) ≤ 20)]
    have h22 : cs.take 2 = (cs.take 4).take 2 := by
      rw [List.take_take]
      norm_num
    rw [h22, hw]
    rfl
  have hrs := redsafe_of_two ht2 (by decide) (by decide)
  refine ⟨?_, fun ds => matchAkia_ext h ds, hrs.1, hrs.2.1, hrs.2.2.1,
    hrs.2.2.2, ?_⟩
  · intro hnil
    rw [hnil] at ht2
    simp at ht2
  · intro r ds _ hrlt hget _
    exfalso
    have hmem : '[' ∈ cs.take 20 := by
      have hg : (cs.take 20).get? r = some '[' := by
        simpa [List.get?_eq_getElem?] using hget
      exact List.get?_mem hg
    rcases matchAkia_chars h '[' hmem with hin | hal
    · revert hin; decide
    · exact absurd hal (by decide)

theorem killhyp_matchBearer {cs : List Char} {n : Nat} (h : matchBearer cs = some n) :
    KillHyp matchBearer (cs.take n) := by
  obtain ⟨hci, hs1, hrr, hn⟩ := matchBearer_some h
  obtain ⟨c0, c1, rest, hcs, h0, h1⟩ :=
    @ciPref_two ('b', 'B') ('e', 'E') _ _ hci
  have ht2 : (cs.take n).take 2 = [c0, c1] := by
    rw [List.take_take, Nat.min_eq_left (by omega : 2 ≤ n), hcs]
    rfl
  have hc0 : c0 ≠ '[' ∧ c0 ≠ ']' := by
    rcases h0 with rfl | rfl <;> exact ⟨by decide, by decide⟩
  have hpair : ∀ i, i < 9 → ¬ (REDSTR[i]? = some c0 ∧ REDSTR[i + 1]? = some c1) := by
    rcases h0 with rfl | rfl <;> rcases h1 with rfl | rfl <;> decide
  have hrs := redsafe_of_two ht2 hc0 hpair
  refine ⟨?_, fun ds => matchBearer_ext h ds, hrs.1, hrs.2.1, hrs.2.2.1,
    hrs.2.2.2, ?_⟩
  · intro hnil
    rw [hnil] at ht2
    simp at ht2
  · intro r ds _ hrlt hget _
    exfalso
    have hmem : '[' ∈ cs.take n := by
      have hg : (cs.take n).get? r = some '[' := by
        simpa [List.get?_eq_getElem?] using hget
      exact List.get?_mem hg
    rcases matchBearer_chars h '[' hmem with hin | hin | hin | hin
    · revert hin; decide
    · exact absurd hin (by decide)
    · exact absurd hin (by decide)
    · exact absurd hin (by decide)

theorem killhyp_matchApiKey {cs : List Char} {n : Nat} (h : matchApiKey cs = some n) :
    KillHyp matchApiKey (cs.take n) := by
  obtain ⟨a, hp, hv1, hn⟩ := matchApiKey_some h
  obtain ⟨o, s1, s2, _, hciA, _, _, _, _, ha, _⟩ := matchPre6_some hp
  obtain ⟨c0, c1, rest, hcs, h0, h1⟩ :=
    @ciPref_two ('a', 'A') ('p', 'P') _ _ hciA
  have ht2 : (cs.take n).take 2 = [c0, c1] := by
    rw [List.take_take, Nat.min_eq_left (by omega : 2 ≤ n), hcs]
    rfl
  have hc0 : c0 ≠ '[' ∧ c0 ≠ ']' := by
    rcases h0 with rfl | rfl <;> exact ⟨by decide, by decide⟩
  have hpair : ∀ i, i < 9 → ¬ (REDSTR[i]? = some c0 ∧ REDSTR[i + 1]? = some c1) := by
    rcases h0 with rfl | rfl <;> rcases h1 with rfl | rfl <;> decide
  have hrs := redsafe_of_two ht2 hc0 hpair
  refine ⟨?_, fun ds => matchApiKey_ext h ds, hrs.1, hrs.2.1, hrs.2.2.1,
    hrs.2.2.2, matchApiKey_hbr h⟩
  intro hnil
  rw [hnil] at ht2
  simp at ht2

theorem litRun20_no_brk {w cs : List Char} {n : Nat} (h : litRun20 w cs = some n)
    (hwb1 : '[' ∉ w) (hwb2 : ']' ∉ w) :
    '[' ∉ cs.take n ∧ ']' ∉ cs.take n := by
  constructor <;> intro hmem
  · rcases litRun20_chars h '[' hmem with hin | hal
    · exact hwb1 hin
    · exact absurd hal (by decide)
  · rcases litRun20_chars h ']' hmem with hin | hal
    · exact hwb2 hin
    · exact absurd hal (by decide)

theorem matchAkia_no_brk {cs : List Char} {n : Nat} (h : matchAkia cs = some n) :
    '[' ∉ cs.take n ∧ ']' ∉ cs.take n := by
  constructor <;> intro hmem
  · rcases matchAkia_chars h '[' hmem with hin | hal
    · revert hin; decide
    · exact absurd hal (by decide)
  · rcases matchAkia_chars h ']' hmem with hin | hal
    · revert hin; decide
    · exact absurd hal (by decide)

theorem matchBearer_no_brk {cs : List Char} {n : Nat} (h : matchBearer cs = some n) :
    '[' ∉ cs.take n ∧ ']' ∉ cs.take n := by
  constructor <;> intro hmem
  · rcases matchBearer_chars h '[' hmem with hin | hin | hin | hin
    · revert hin; decide
    · exact absurd hin (by decide)
    · exact absurd hin (by decide)
    · exact absurd hin (by decide)
  · rcases matchBearer_chars h ']' hmem with hin | hin | hin | hin
    · revert hin; decide
    · exact absurd hin (by decide)
    · exact absurd hin (by decide)
    · exact absurd hin (by decide)

/-- A bracket-free matched string that is not part of the sentinel descends
through a substitution pass. -/
theorem descent_infix {m : List Char → Option Nat} {t cs : List Char}
    (hb1 : '[' ∉ t) (hb2 : ']' ∉ t) (hninf : ¬ t <:+: REDSTR)
    (h : t <:+: subAux m cs) : t <:+: cs := by
  rcases sub_infix_split cs t h with h' | h' | h' | h'
  · exact h'
  · exact absurd h' hb1
  · exact absurd h' hb2
  · exact absurd h' hninf

theorem red_foldl_keep : ∀ (ps : List Pat) (x : List Char), REDSTR <:+: x →
    REDSTR <:+: ps.foldl (fun acc p => subAux p.matcher acc) x := by
  intro ps
  induction ps with
  | nil => intro x h; exact h
  | cons q qs ih =>
    intro x h
    rw [List.foldl_cons]
    exact ih _ (red_infix_subAux_preserved x h)

theorem red_foldl : ∀ (ps : List Pat) (x : List Char),
    (∃ p ∈ ps, hasSite p.matcher x = true) →
    REDSTR <:+: ps.foldl (fun acc p => subAux p.matcher acc) x := by
  intro ps
  induction ps with
  | nil =>
    rintro x ⟨p, hmem, _⟩
    simp at hmem
  | cons q qs ih =>
    rintro x ⟨p, hmem, hsite⟩
    rw [List.foldl_cons]
    by_cases hq : hasSite q.matcher x = true
    · exact red_foldl_keep qs _ (red_infix_subAux_of_hasSite x hq)
    · have hid : subAux q.matcher x = x := subAux_id_of_not_hasSite x (by
        cases hqq : hasSite q.matcher x
        · rfl
        · exact absurd hqq hq)
      rw [hid]
      rcases List.mem_cons.mp hmem with rfl | hmem'
      · exact absurd hsite hq
      · exact ih x ⟨p, hmem', hsite⟩

theorem foldl_id_of_none : ∀ (ps : List Pat) (x : List Char),
    (∀ p ∈ ps, hasSite p.matcher x = false) →
    ps.foldl (fun acc p => subAux p.matcher acc) x = x := by
  intro ps
  induction ps with
  | nil => intro x _; rfl
  | cons q qs ih =>
    intro x h
    rw [List.foldl_cons, subAux_id_of_not_hasSite x (h q (List.mem_cons_self _ _))]
    exact ih x (fun p hp => h p (List.mem_cons_of_mem _ hp))

theorem matcher_nil (p : Pat) : Pat.matcher p [] = none := by
  cases p <;> rfl

/-- Part two of the redaction specification: no matched substring of the input
survives anywhere in the output. -/
theorem redact_str_kills_match {s : List Char} (p : Pat) (i n : Nat)
    (h : Pat.matcher p (s.drop i) = some n) :
    ¬ ((s.drop i).take n <:+: redact_str s) := by
  intro hinf
  have hred : redact_str s =
      subAux matchApiKey (subAux matchAkia (subAux matchBearer (subAux matchGhPat
        (subAux matchGhp (subAux matchSk s))))) := rfl
  rw [hred] at hinf
  cases p with
  | sk =>
    have h' : litRun20 "sk-".data (s.drop i) = some n := h
    have hK := killhyp_litRun20 h'
      (show ("sk-".data).take 2 = ['s', 'k'] by decide) (by decide) (by decide)
      (by decide) (by decide)
    have hnb := litRun20_no_brk h' (by decide) (by decide)
    have h5 := descent_infix hnb.1 hnb.2 hK.2.2.2.2.1 hinf
    have h4 := descent_infix hnb.1 hnb.2 hK.2.2.2.2.1 h5
    have h3 := descent_infix hnb.1 hnb.2 hK.2.2.2.2.1 h4
    have h2 := descent_infix hnb.1 hnb.2 hK.2.2.2.2.1 h3
    have h1 := descent_infix hnb.1 hnb.2 hK.2.2.2.2.1 h2
    exact scan_kill_of_killHyp hK s h1
  | ghp =>
    have h' : litRun20 "ghp_".data (s.drop i) = some n := h
    have hK := killhyp_litRun20 h'
      (show ("ghp_".data).take 2 = ['g', 'h'] by decide) (by decide) (by decide)
      (by decide) (by decide)
    have hnb := litRun20_no_brk h' (by decide) (by decide)
    have h5 := descent_infix hnb.1 hnb.2 hK.2.2.2.2.1 hinf
    have h4 := descent_infix hnb.1 hnb.2 hK.2.2.2.2.1 h5
    have h3 := descent_infix hnb.1 hnb.2 hK.2.2.2.2.1 h4
    have h2 := descent_infix hnb.1 hnb.2 hK.2.2.2.2.1 h3
    exact scan_kill_of_killHyp hK _ h2
  | ghpat =>
    have h' : litRun20 "github_pat_".data (s.drop i) = some n := h
    have hK := killhyp_litRun20 h'
      (show ("github_pat_".data).take 2 = ['g', 'i'] by decide) (by decide)
      (by decide) (by decide) (by decide)
    have hnb := litRun20_no_brk h' (by decide) (by decide)
    have h5 := descent_infix hnb.1 hnb.2 hK.2.2.2.2.1 hinf
    have h4 := descent_infix hnb.1 hnb.2 hK.2.2.2.2.1 h5
    have h3 := descent_infix hnb.1 hnb.2 hK.2.2.2.2.1 h4
    exact scan_kill_of_killHyp hK _ h3
  | bearer =>
    have h' : matchBearer (s.drop i) = some n := h
    have hK := killhyp_matchBearer h'
    have hnb := matchBearer_no_brk h'
    have h5 := descent_infix hnb.1 hnb.2 hK.2.2.2.2.1 hinf
    have h4 := descent_infix hnb.1 hnb.2 hK.2.2.2.2.1 h5
    exact scan_kill_of_killHyp hK _ h4
  | akia =>
    have h' : matchAkia (s.drop i) = some n := h
    have hK := killhyp_matchAkia h'
    have hnb := matchAkia_no_brk h'
    have h5 := descent_infix hnb.1 hnb.2 hK.2.2.2.2.1 hinf
    exact scan_kill_of_killHyp hK _ h5
  | apikey =>
    have h' : matchApiKey (s.drop i) = some n := h
    have hK := killhyp_matchApiKey h'
    exact scan_kill_of_killHyp hK _ hinf

/-- C1: for every string containing a match of a recognized secret pattern
(OpenAI and GitHub key prefixes, Bearer tokens, AWS access-key prefixes,
api-key assignments), the output of `redact_str` contains the sentinel
`[REDACTED]` and does not contain the matched substring; for every string
with no pattern match at any position, `redact_str` returns the input
unchanged. -/
theorem C1_redact_str_secret_spec (s : List Char) :
    ((∃ (p : Pat) (i : Nat), (Pat.matcher p (s.drop i)).isSome = true) →
      REDSTR <:+: redact_str s) ∧
    (∀ (p : Pat) (i n : Nat), Pat.matcher p (s.drop i) = some n →
      ¬ ((s.drop i).take n <:+: redact_str s)) ∧
    ((∀ (p : Pat) (i : Nat), i ≤ s.length → Pat.matcher p (s.drop i) = none) →
      redact_str s = s) := by
  refine ⟨?_, fun p i n h => redact_str_kills_match p i n h, ?_⟩
  · rintro ⟨p, i, hp⟩
    have hmem : p ∈ PATLIST := by cases p <;> decide
    exact red_foldl PATLIST s ⟨p, hmem, hasSite_of_drop (matcher_nil p) s i hp⟩
  · intro h
    refine foldl_id_of_none PATLIST s (fun p _ => hasSite_false_of_none s ?_)
    intro j
    rcases Nat.le_total j s.length with hj | hj
    · exact h p j hj
    · rw [List.drop_eq_nil_of_le hj]
      exact matcher_nil p

theorem C1_redact_str_secret_spec_witness :
    (REDSTR <:+: redact_str ("key sk-ABCDEFGHIJKLMNOPQRSTuv end".data)) ∧
    (¬ ((("key sk-ABCDEFGHIJKLMNOPQRSTuv end".data).drop 4).take 25 <:+:
        redact_str ("key sk-ABCDEFGHIJKLMNOPQRSTuv end".data))) ∧
    redact_str ("no secrets here".data) = "no secrets here".data :=
  ⟨(C1_redact_str_secret_spec ("key sk-ABCDEFGHIJKLMNOPQRSTuv end".data)).1
      ⟨Pat.sk, 4, by decide⟩,
   (C1_redact_str_secret_spec ("key sk-ABCDEFGHIJKLMNOPQRSTuv end".data)).2.1
      Pat.sk 4 25 (by decide),
   (C1_redact_str_secret_spec ("no secrets here".data)).2.2
      (by intro p; cases p <;> decide)⟩

/-- JSON-like values handled by `redact_any`: None, strings, numbers,
booleans, lists, and string-keyed mappings.  `jint` and `jbool` stand for
the non-string non-container scalars that pass through unchanged. -/
inductive JVal where
  | jnull : JVal
  | jstr : List Char → JVal
  | jint : Int → JVal
  | jbool : Bool → JVal
  | jarr : List JVal → JVal
  | jobj : List (List Char × JVal) → JVal

mutual

/-- `redact_any` from redaction.py: recursive redaction of JSON-like data.
Total by construction: every constructor is covered, and unknown scalar
shapes fall through unchanged, so redaction can never raise. -/
def redact_any : JVal → JVal
  | .jnull => .jnull
  | .jstr s => .jstr (redact_str s)
  | .jarr xs => .jarr (redactList xs)
  | .jobj kvs => .jobj (redactKVs kvs)
  | .jint n => .jint n
  | .jbool b => .jbool b

/-- Element-wise redaction of a list value. -/
def redactList : List JVal → List JVal
  | [] => []
  | v :: vs => redact_any v :: redactList vs

/-- Value-wise redaction of a mapping; keys are returned untouched. -/
def redactKVs : List (List Char × JVal) → List (List Char × JVal)
  | [] => []
  | (k, v) :: kvs => (k, redact_any v) :: redactKVs kvs

end

theorem redactList_eq_map : ∀ xs : List JVal, redactList xs = xs.map redact_any := by
  intro xs
  induction xs with
  | nil => rfl
  | cons v vs ih => simp [redactList, ih]

theorem redactKVs_eq_map : ∀ kvs : List (List Char × JVal),
    redactKVs kvs = kvs.map (fun kv => (kv.1, redact_any kv.2)) := by
  intro kvs
  induction kvs with
  | nil => rfl
  | cons kv kvs ih =>
    obtain ⟨k, v⟩ := kv
    simp [redactKVs, ih]

/-- C9: `redact_any` is total over arbitrary JSON-like input and never
raises: None maps to None, lists and mappings are redacted element-wise and
value-wise recursively, mapping keys are returned unchanged (only values are
redacted), and every non-string non-list non-mapping value is returned
unchanged.  Totality is by construction: `redact_any` is a total function on
the closed value shape `JVal`. -/
theorem C9_redact_any_total_spec :
    (redact_any .jnull = .jnull) ∧
    (∀ s, redact_any (.jstr s) = .jstr (redact_str s)) ∧
    (∀ xs, redact_any (.jarr xs) = .jarr (xs.map redact_any)) ∧
    (∀ kvs : List (List Char × JVal), redact_any (.jobj kvs) =
      .jobj (kvs.map (fun kv => (kv.1, redact_any kv.2)))) ∧
    (∀ kvs : List (List Char × JVal),
      (kvs.map (fun kv => (kv.1, redact_any kv.2))).map Prod.fst =
        kvs.map Prod.fst) ∧
    (∀ n, redact_any (.jint n) = .jint n) ∧
    (∀ b, redact_any (.jbool b) = .jbool b) := by
  refine ⟨rfl, fun s => rfl, ?_, ?_, ?_, fun n => rfl, fun b => rfl⟩
  · intro xs
    rw [show redact_any (.jarr xs) = .jarr (redactList xs) from rfl,
      redactList_eq_map]
  · intro kvs
    rw [show redact_any (.jobj kvs) = .jobj (redactKVs kvs) from rfl,
      redactKVs_eq_map]
  · intro kvs
    induction kvs with
    | nil => rfl
    | cons kv kvs ih => simp [ih]

/-- The closed event-type enum of models.py. -/
inductive EType where
  | LOG | STATE_UPDATE | CHECKPOINT_SAVED | INTERRUPT_REQUIRED
  | RESUMED | COMPLETED | ERROR | CANCELLED
deriving DecidableEq

/-- The wire string of each event type. -/
def EType.str : EType → List Char
  | .LOG => "LOG".data
  | .STATE_UPDATE => "STATE_UPDATE".data
  | .CHECKPOINT_SAVED => "CHECKPOINT_SAVED".data
  | .INTERRUPT_REQUIRED => "INTERRUPT_REQUIRED".data
  | .RESUMED => "RESUMED".data
  | .COMPLETED => "COMPLETED".data
  | .ERROR => "ERROR".data
  | .CANCELLED => "CANCELLED".data

/-- `AdapterEvent` from models.py (payload is a string-keyed mapping). -/
structure AdapterEvent where
  ts : Nat
  run_id : List Char
  span_id : List Char
  parent_span_id : Option (List Char)
  type : EType
  payload : List (List Char × JVal)

/-- An optional string as a JSON value (None becomes null). -/
def optStr : Option (List Char) → JVal
  | none => .jnull
  | some s => .jstr s

/-- `to_afc_format` from models.py: the AFC-compatible envelope, with the
fields in their wire order. -/
def AdapterEvent.to_afc_format (e : AdapterEvent) : JVal :=
  .jobj [("ts".data, .jint e.ts), ("run_id".data, .jstr e.run_id),
         ("span_id".data, .jstr e.span_id),
         ("parent_span_id".data, optStr e.parent_span_id),
         ("type".data, .jstr (EType.str e.type)),
         ("payload".data, .jobj e.payload)]

/-- `redact_event_dict` from redaction.py. -/
def redact_event_dict : JVal → JVal := redact_any

/-- `redact_str` leaves a string without any pattern site unchanged. -/
theorem redact_str_id_of_no_site (s : List Char)
    (h : ∀ p : Pat, hasSite p.matcher s = false) : redact_str s = s :=
  foldl_id_of_none PATLIST s (fun p _ => h p)

/-- Every event-type enum string is a fixed point of redaction, so Pydantic
re-validation of the `type` field of the redacted envelope succeeds and
returns the same enum member. -/
theorem EType_str_fixed (e : EType) : redact_str (EType.str e) = EType.str e := by
  cases e <;> exact redact_str_id_of_no_site _ (by intro p; cases p <;> decide)

/-- The event re-hydrated from the redacted envelope in `emit_event`
(emitter.py): each field equals the corresponding value of
`redact_event_dict(ev.to_afc_format())`, as proved by
`C2_emit_event_stores_redacted`.  The `ts` field is the integer assigned at
construction (redaction does not change integers). -/
def emit_event_build (ts : Nat) (run_id span_id : List Char)
    (parent : Option (List Char)) (ty : EType)
    (payload : List (List Char × JVal)) : AdapterEvent :=
  { ts := ts, run_id := redact_str run_id, span_id := redact_str span_id,
    parent_span_id := parent.map redact_str, type := ty,
    payload := redactKVs payload }

/-- Association-list lookup, first match wins (dict lookup). -/
def alookup {α : Type} : List (List Char × α) → List Char → Option α
  | [], _ => none
  | (k, v) :: rest, key => if k = key then some v else alookup rest key

/-- Association-list update (dict assignment): overwrite in place or append. -/
def aset {α : Type} : List (List Char × α) → List Char → α → List (List Char × α)
  | [], key, v => [(key, v)]
  | (k, w) :: rest, key, v =>
    if k = key then (k, v) :: rest else (k, w) :: aset rest key v

theorem alookup_aset_self {α : Type} :
    ∀ (l : List (List Char × α)) (k : List Char) (v : α),
      alookup (aset l k v) k = some v := by
  intro l
  induction l with
  | nil => intro k v; simp [aset, alookup]
  | cons kw rest ih =>
    intro k v
    obtain ⟨k', w⟩ := kw
    by_cases hk : k' = k
    · simp [aset, alookup, hk]
    · simp only [aset, alookup, if_neg hk]
      exact ih k v

theorem alookup_aset_ne {α : Type} :
    ∀ (l : List (List Char × α)) (k k' : List Char) (v : α), k ≠ k' →
      alookup (aset l k v) k' = alookup l k' := by
  intro l
  induction l with
  | nil =>
    intro k k' v hne
    simp [aset, alookup, hne]
  | cons kw rest ih =>
    intro k k' v hne
    obtain ⟨k'', w⟩ := kw
    by_cases hk : k'' = k
    · subst hk
      simp [aset, alookup, hne]
    · simp only [aset, if_neg hk, alookup]
      by_cases hk' : k'' = k'
      · simp [hk']
      · simp only [if_neg hk']
        exact ih k k' v hne

/-- `RunStatus` from models.py. -/
inductive RunStatus where
  | PENDING | RUNNING | WAITING_APPROVAL | CANCELLED | COMPLETED | FAILED
deriving DecidableEq

/-- `RunState` from models.py. -/
structure RunState where
  runId : List Char
  status : RunStatus
  createdAtMs : Nat
  updatedAtMs : Nat
  threadId : List Char
  rootSpanId : List Char
  interrupt : Option JVal
  error : Option (List Char)

/-- `MemoryStore` from store.py: the run registry and the per-run event log,
as key-value lists mirroring the two dicts. -/
structure MemoryStore where
  runs : List (List Char × RunState)
  events : List (List Char × List AdapterEvent)

/-- `MemoryStore.create_run`: registers the run and creates its empty log. -/
def MemoryStore.create_run (st : MemoryStore) (run : RunState) : MemoryStore :=
  { runs := aset st.runs run.runId run, events := aset st.events run.runId [] }

/-- `MemoryStore.get_run` (total variant: the routes always guard existence
with `has_run`, so the `KeyError` branch of the dict access is never taken). -/
def MemoryStore.get_run (st : MemoryStore) (run_id : List Char) : Option RunState :=
  alookup st.runs run_id

/-- `MemoryStore.has_run`. -/
def MemoryStore.has_run (st : MemoryStore) (run_id : List Char) : Bool :=
  (alookup st.runs run_id).isSome

/-- `MemoryStore.update_run`. -/
def MemoryStore.update_run (st : MemoryStore) (run : RunState) : MemoryStore :=
  { st with runs := aset st.runs run.runId run }

/-- `MemoryStore.add_event`: `events.setdefault(run_id, []).append(ev)` —
note this creates the sequence when the key is absent, with no existence
check against the run registry. -/
def MemoryStore.add_event (st : MemoryStore) (run_id : List Char)
    (ev : AdapterEvent) : MemoryStore :=
  let cur := (alookup st.events run_id).getD []
  { st with events := aset st.events run_id (cur ++ [ev]) }

/-- `MemoryStore.list_events`: snapshot of the run's log (empty if unknown). -/
def MemoryStore.list_events (st : MemoryStore) (run_id : List Char) :
    List AdapterEvent :=
  (alookup st.events run_id).getD []

/-- `emit_event` from emitter.py: build the event, redact its AFC envelope,
re-hydrate, and store.  Returns the updated store and the stored event. -/
def emit_event (st : MemoryStore) (run_id span_id : List Char)
    (parent : Option (List Char)) (ty : EType)
    (payload : List (List Char × JVal)) (ts : Nat) :
    MemoryStore × AdapterEvent :=
  let ev2 := emit_event_build ts run_id span_id parent ty payload
  (st.add_event run_id ev2, ev2)

/-- C2: for every event passed through `emit_event`, the event actually
stored in the event log (and later returned by `list_events`) equals the
result of applying the recursive redaction function to the event's AFC
envelope; in particular its payload is fully redacted, recursively through
nested lists and mappings, before it is stored. -/
theorem C2_emit_event_stores_redacted (st : MemoryStore)
    (run_id span_id : List Char) (parent : Option (List Char)) (ty : EType)
    (payload : List (List Char × JVal)) (ts : Nat) :
    (emit_event st run_id span_id parent ty payload ts).2.to_afc_format =
      redact_event_dict
        (AdapterEvent.mk ts run_id span_id parent ty payload).to_afc_format ∧
    (emit_event st run_id span_id parent ty payload ts).2.payload =
      redactKVs payload ∧
    (emit_event st run_id span_id parent ty payload ts).1.list_events run_id =
      st.list_events run_id ++
        [(emit_event st run_id span_id parent ty payload ts).2] ∧
    (emit_event st run_id span_id parent ty payload ts).1.runs = st.runs := by
  refine ⟨?_, rfl, ?_, rfl⟩
  · show (emit_event_build ts run_id span_id parent ty payload).to_afc_format = _
    unfold emit_event_build AdapterEvent.to_afc_format redact_event_dict
    cases parent with
    | none =>
      simp only [redact_any, redactKVs, Option.map_none', optStr]
      rw [EType_str_fixed]
    | some ps =>
      simp only [redact_any, redactKVs, Option.map_some', optStr]
      rw [EType_str_fixed]
  · show (MemoryStore.add_event st run_id
        (emit_event_build ts run_id span_id parent ty payload)).list_events
          run_id = _
    unfold MemoryStore.add_event MemoryStore.list_events
    simp only [alookup_aset_self]
    rfl

/-- Payload of the LOG event emitted by `create_run`. -/
def msgCreated : List (List Char × JVal) :=
  [("msg".data, .jstr "run created".data)]

/-- The interrupt descriptor stored while WAITING_APPROVAL (runs.py). -/
def interruptKVs : List (List Char × JVal) :=
  [("gate_type".data, .jstr "approval".data),
   ("resume_schema".data, .jobj [("approved".data, .jstr "bool".data),
                                 ("notes".data, .jstr "str?".data)])]

/-- Payload of the CANCELLED event. -/
def cancelledPayload : List (List Char × JVal) :=
  [("msg".data, .jstr "cancelled".data)]

/-- Payload of the ERROR event. -/
def errPayload (e : List Char) : List (List Char × JVal) :=
  [("error".data, .jstr e)]

/-- Payload of the RESUMED event, recording the resume request body. -/
def resumedPayload (approved : Bool) (notes : Option (List Char)) :
    List (List Char × JVal) :=
  [("approved".data, .jbool approved), ("notes".data, optStr notes)]

/-- One engine invocation (`GRAPH.invoke`) as seen by the coordinator: the
events its graph nodes emit through `emit_event` before the call returns (or
before an exception escapes), and the outcome — `none` for a normal return,
`some e` for an exception with message `e`.  The nodes emit for the run and
root-span identifiers passed in through the graph state. -/
structure EngineCall where
  emits : List (EType × List (List Char × JVal))
  outcome : Option (List Char)

/-- Apply the engine's emissions for the run. -/
def applyEmits (st : MemoryStore) (run_id root_span : List Char) (now : Nat)
    (emits : List (EType × List (List Char × JVal))) : MemoryStore :=
  emits.foldl (fun s e => (emit_event s run_id root_span none e.1 e.2 now).1) st

/-- The stored form of the engine's emissions. -/
def emitsEvents (run_id root_span : List Char) (now : Nat)
    (emits : List (EType × List (List Char × JVal))) : List AdapterEvent :=
  emits.map (fun e => emit_event_build now run_id root_span none e.1 e.2)

/-- `RunCreateResponse`: create always answers with a run id and status. -/
inductive CreateResp where
  | ok : List Char → RunStatus → CreateResp
deriving DecidableEq

/-- Outcome of the resume route: 404, 409, success, or a propagated
exception. -/
inductive ResumeResult where
  | notFound : ResumeResult
  | conflict : ResumeResult
  | success : ResumeResult
  | raised : List Char → ResumeResult
deriving DecidableEq

/-- Outcome of the cancel route: 404, 409 or success. -/
inductive CancelResult where
  | notFound : CancelResult
  | conflict : CancelResult
  | success : CancelResult
deriving DecidableEq

/-- `create_run` from runs.py.  `run_id` and `root_span` are the fresh
`new_id()` values and `now` the `now_ms()` sample of this call. -/
def create_run (st : MemoryStore) (run_id root_span : List Char) (now : Nat)
    (eng : EngineCall) : MemoryStore × CreateResp :=
  let run0 : RunState :=
    ⟨run_id, .PENDING, now, now, run_id, root_span, none, none⟩
  let st1 := st.create_run run0
  let run1 := { run0 with status := RunStatus.RUNNING, updatedAtMs := now }
  let st2 := st1.update_run run1
  let st3 := (emit_event st2 run_id root_span none .LOG msgCreated now).1
  let st4 := applyEmits st3 run_id root_span now eng.emits
  match eng.outcome with
  | none =>
    let run2 := { run1 with
      status := RunStatus.WAITING_APPROVAL
      interrupt := some (JVal.jobj interruptKVs)
      updatedAtMs := now }
    let st5 := st4.update_run run2
    let st6 := (emit_event st5 run_id root_span none .INTERRUPT_REQUIRED
      interruptKVs now).1
    (st6, .ok run_id RunStatus.WAITING_APPROVAL)
  | some e =>
    let run2 := { run1 with
      status := RunStatus.FAILED
      error := some e
      updatedAtMs := now }
    let st5 := st4.update_run run2
    let st6 := (emit_event st5 run_id root_span none .ERROR (errPayload e)
      now).1
    (st6, .ok run_id RunStatus.FAILED)

/-- `resume_run` from runs.py.  The 409 guard mirrors
`if run.status != WAITING_APPROVAL: raise Conflict`. -/
def resume_run (st : MemoryStore) (run_id : List Char) (approved : Bool)
    (notes : Option (List Char)) (now : Nat) (eng : EngineCall) :
    MemoryStore × ResumeResult :=
  match st.get_run run_id with
  | none => (st, .notFound)
  | some run =>
    if run.status = RunStatus.WAITING_APPROVAL then
      let st1 := (emit_event st run_id run.rootSpanId none .RESUMED
        (resumedPayload approved notes) now).1
      let st2 := applyEmits st1 run_id run.rootSpanId now eng.emits
      match eng.outcome with
      | none =>
        let run2 := { run with
          status := RunStatus.COMPLETED
          interrupt := none
          updatedAtMs := now }
        (st2.update_run run2, .success)
      | some e =>
        let run2 := { run with
          status := RunStatus.FAILED
          error := some e
          updatedAtMs := now }
        let st3 := (emit_event (st2.update_run run2) run_id run.rootSpanId
          none .ERROR (errPayload e) now).1
        (st3, .raised e)
    else (st, .conflict)

/-- `cancel_run` from runs.py. -/
def cancel_run (st : MemoryStore) (run_id : List Char) (now : Nat) :
    MemoryStore × CancelResult :=
  match st.get_run run_id with
  | none => (st, .notFound)
  | some run =>
    if run.status = RunStatus.COMPLETED ∨ run.status = RunStatus.FAILED then
      (st, .conflict)
    else if run.status = RunStatus.CANCELLED then
      (st, .success)
    else
      let run2 := { run with
        status := RunStatus.CANCELLED
        updatedAtMs := now }
      let st1 := st.update_run run2
      let st2 := (emit_event st1 run_id run.rootSpanId none .CANCELLED
        cancelledPayload now).1
      (st2, .success)

theorem update_run_events (st : MemoryStore) (run : RunState) :
    (st.update_run run).events = st.events := rfl

theorem add_event_runs (st : MemoryStore) (rid : List Char) (ev : AdapterEvent) :
    (st.add_event rid ev).runs = st.runs := rfl

theorem list_events_add_event (st : MemoryStore) (rid : List Char)
    (ev : AdapterEvent) :
    (st.add_event rid ev).list_events rid = st.list_events rid ++ [ev] := by
  unfold MemoryStore.add_event MemoryStore.list_events
  simp only [alookup_aset_self]
  rfl

theorem update_run_get_self (st : MemoryStore) (run : RunState) :
    (st.update_run run).get_run run.runId = some run := by
  unfold MemoryStore.update_run MemoryStore.get_run
  exact alookup_aset_self _ _ _

theorem update_run_get_ne (st : MemoryStore) (run : RunState) (rid : List Char)
    (h : run.runId ≠ rid) : (st.update_run run).get_run rid = st.get_run rid := by
  unfold MemoryStore.update_run MemoryStore.get_run
  exact alookup_aset_ne _ _ _ _ h

theorem applyEmits_runs (rid span : List Char) (now : Nat) :
    ∀ (emits : List (EType × List (List Char × JVal))) (st : MemoryStore),
      (applyEmits st rid span now emits).runs = st.runs := by
  intro emits
  induction emits with
  | nil => intro st; rfl
  | cons e rest ih =>
    intro st
    have h1 : applyEmits st rid span now (e :: rest) =
        applyEmits (st.add_event rid
          (emit_event_build now rid span none e.1 e.2)) rid span now rest := rfl
    rw [h1, ih]
    rfl

theorem applyEmits_events_self (rid span : List Char) (now : Nat) :
    ∀ (emits : List (EType × List (List Char × JVal))) (st : MemoryStore),
      (applyEmits st rid span now emits).list_events rid =
        st.list_events rid ++ emitsEvents rid span now emits := by
  intro emits
  induction emits with
  | nil => intro st; simp [applyEmits, emitsEvents]
  | cons e rest ih =>
    intro st
    have h1 : applyEmits st rid span now (e :: rest) =
        applyEmits (st.add_event rid
          (emit_event_build now rid span none e.1 e.2)) rid span now rest := rfl
    rw [h1, ih, list_events_add_event]
    simp [emitsEvents, List.append_assoc]

theorem add_event_get_run (st : MemoryStore) (rid r : List Char)
    (ev : AdapterEvent) : (st.add_event rid ev).get_run r = st.get_run r := rfl

theorem emit_event_get_run (st : MemoryStore) (run_id span_id : List Char)
    (parent : Option (List Char)) (ty : EType)
    (payload : List (List Char × JVal)) (ts : Nat) (r : List Char) :
    (emit_event st run_id span_id parent ty payload ts).1.get_run r =
      st.get_run r := rfl

theorem emit_event_list_events_self (st : MemoryStore)
    (run_id span_id : List Char) (parent : Option (List Char)) (ty : EType)
    (payload : List (List Char × JVal)) (ts : Nat) :
    (emit_event st run_id span_id parent ty payload ts).1.list_events run_id =
      st.list_events run_id ++
        [emit_event_build ts run_id span_id parent ty payload] :=
  list_events_add_event st run_id _

theorem update_run_list_events (st : MemoryStore) (run : RunState)
    (rid : List Char) : (st.update_run run).list_events rid = st.list_events rid
  := rfl

/-- A one-run store for concrete instantiations. -/
def demoRun (stt : RunStatus) : RunState :=
  ⟨"r1".data, stt, 0, 0, "r1".data, "sp".data, none, none⟩

/-- A store holding just `demoRun stt` with an empty log. -/
def demoStore (stt : RunStatus) : MemoryStore :=
  ⟨[("r1".data, demoRun stt)], [("r1".data, [])]⟩

/-- C3: resuming an existing run whose status is not WAITING_APPROVAL fails
with Conflict (HTTP 409), appends no event to the run's log, and leaves the
run state (status, interrupt, error, timestamps) unchanged: the whole store
is returned untouched. -/
theorem C3_resume_non_waiting_conflict (st : MemoryStore) (run_id : List Char)
    (run : RunState) (approved : Bool) (notes : Option (List Char)) (now : Nat)
    (eng : EngineCall) (hlook : st.get_run run_id = some run)
    (hst : run.status ≠ RunStatus.WAITING_APPROVAL) :
    (resume_run st run_id approved notes now eng).2 = ResumeResult.conflict ∧
    (resume_run st run_id approved notes now eng).1 = st := by
  unfold resume_run
  rw [hlook]
  simp only []
  rw [if_neg hst]
  exact ⟨rfl, rfl⟩

theorem C3_resume_non_waiting_conflict_witness :
    (resume_run (demoStore RunStatus.COMPLETED) ("r1".data) true none 5
      ⟨[], none⟩).2 = ResumeResult.conflict ∧
    (resume_run (demoStore RunStatus.COMPLETED) ("r1".data) true none 5
      ⟨[], none⟩).1 = demoStore RunStatus.COMPLETED :=
  C3_resume_non_waiting_conflict (demoStore RunStatus.COMPLETED) ("r1".data)
    (demoRun RunStatus.COMPLETED) true none 5 ⟨[], none⟩ rfl (by decide)

theorem cancel_run_cancelled {st : MemoryStore} {run_id : List Char}
    {run : RunState} {now : Nat} (hlook : st.get_run run_id = some run)
    (hc : run.status = RunStatus.CANCELLED) :
    cancel_run st run_id now = (st, CancelResult.success) := by
  have hnc : ¬ (run.status = RunStatus.COMPLETED ∨
      run.status = RunStatus.FAILED) := by simp [hc]
  unfold cancel_run
  rw [hlook]
  simp only []
  rw [if_neg hnc, if_pos hc]

/-- C4: for an existing run, Cancel fails with Conflict exactly when the
status is COMPLETED or FAILED; and from any non-terminal status, cancelling
twice yields success both times and appends exactly one CANCELLED event (the
second call is a no-op success). -/
theorem C4_cancel_conflict_iff_and_idempotent (st : MemoryStore)
    (run_id : List Char) (run : RunState) (now1 now2 : Nat)
    (hlook : st.get_run run_id = some run) (hid : run.runId = run_id) :
    ((cancel_run st run_id now1).2 = CancelResult.conflict ↔
      (run.status = RunStatus.COMPLETED ∨ run.status = RunStatus.FAILED)) ∧
    (run.status ≠ RunStatus.COMPLETED → run.status ≠ RunStatus.FAILED →
      run.status ≠ RunStatus.CANCELLED →
      (cancel_run st run_id now1).2 = CancelResult.success ∧
      (cancel_run (cancel_run st run_id now1).1 run_id now2).2 =
        CancelResult.success ∧
      ∃ ev, ev.type = EType.CANCELLED ∧
        (cancel_run (cancel_run st run_id now1).1 run_id now2).1.list_events
          run_id = st.list_events run_id ++ [ev]) := by
  constructor
  · unfold cancel_run
    rw [hlook]
    simp only []
    by_cases hterm : run.status = RunStatus.COMPLETED ∨
        run.status = RunStatus.FAILED
    · rw [if_pos hterm]
      exact ⟨fun _ => hterm, fun _ => rfl⟩
    · rw [if_neg hterm]
      by_cases hc : run.status = RunStatus.CANCELLED
      · rw [if_pos hc]
        constructor
        · intro hx
          simp at hx
        · intro hx
          exact absurd hx hterm
      · rw [if_neg hc]
        constructor
        · intro hx
          simp at hx
        · intro hx
          exact absurd hx hterm
  · intro h1 h2 h3
    have hterm : ¬ (run.status = RunStatus.COMPLETED ∨
        run.status = RunStatus.FAILED) := by tauto
    have hc1 : cancel_run st run_id now1 =
        ((st.update_run { run with
            status := RunStatus.CANCELLED
            updatedAtMs := now1 }).add_event run_id
          (emit_event_build now1 run_id run.rootSpanId none EType.CANCELLED
            cancelledPayload), CancelResult.success) := by
      unfold cancel_run
      rw [hlook]
      simp only []
      rw [if_neg hterm, if_neg h3]
      rfl
    have hlook2 : ((st.update_run { run with
        status := RunStatus.CANCELLED
        updatedAtMs := now1 }).add_event run_id
          (emit_event_build now1 run_id run.rootSpanId none EType.CANCELLED
            cancelledPayload)).get_run run_id =
        some { run with
          status := RunStatus.CANCELLED
          updatedAtMs := now1 } := by
      rw [add_event_get_run]
      have hkey : ({ run with
          status := RunStatus.CANCELLED
          updatedAtMs := now1 } : RunState).runId = run_id := hid
      rw [← hkey]
      exact update_run_get_self _ _
    have hc2 : cancel_run (cancel_run st run_id now1).1 run_id now2 =
        ((cancel_run st run_id now1).1, CancelResult.success) := by
      rw [hc1]
      exact cancel_run_cancelled hlook2 rfl
    refine ⟨by rw [hc1], by rw [hc2],
      ⟨emit_event_build now1 run_id run.rootSpanId none EType.CANCELLED
        cancelledPayload, rfl, ?_⟩⟩
    rw [hc2, hc1]
    rw [list_events_add_event, update_run_list_events]

theorem C4_cancel_conflict_iff_and_idempotent_witness :
    ((cancel_run (demoStore RunStatus.RUNNING) ("r1".data) 5).2 =
        CancelResult.conflict ↔
      ((demoRun RunStatus.RUNNING).status = RunStatus.COMPLETED ∨
        (demoRun RunStatus.RUNNING).status = RunStatus.FAILED)) ∧
    ((demoRun RunStatus.RUNNING).status ≠ RunStatus.COMPLETED →
      (demoRun RunStatus.RUNNING).status ≠ RunStatus.FAILED →
      (demoRun RunStatus.RUNNING).status ≠ RunStatus.CANCELLED →
      (cancel_run (demoStore RunStatus.RUNNING) ("r1".data) 5).2 =
        CancelResult.success ∧
      (cancel_run (cancel_run (demoStore RunStatus.RUNNING) ("r1".data) 5).1
        ("r1".data) 6).2 = CancelResult.success ∧
      ∃ ev, ev.type = EType.CANCELLED ∧
        (cancel_run (cancel_run (demoStore RunStatus.RUNNING) ("r1".data) 5).1
          ("r1".data) 6).1.list_events ("r1".data) =
          (demoStore RunStatus.RUNNING).list_events ("r1".data) ++ [ev]) :=
  C4_cancel_conflict_iff_and_idempotent (demoStore RunStatus.RUNNING)
    ("r1".data) (demoRun RunStatus.RUNNING) 5 6 rfl rfl

/-- C5: if the engine invocation inside Create raises, Create transitions the
run to FAILED, records the error message, emits an ERROR event (the last
event of the run's log), and still returns a normal response reporting
FAILED; and for every engine outcome, Create never leaves the run in status
RUNNING. -/
theorem C5_create_fault_reports_failed (st : MemoryStore)
    (run_id root_span : List Char) (now : Nat) (eng : EngineCall)
    (e : List Char) (hout : eng.outcome = some e) :
    (create_run st run_id root_span now eng).2 =
      CreateResp.ok run_id RunStatus.FAILED ∧
    (∃ run', (create_run st run_id root_span now eng).1.get_run run_id =
        some run' ∧ run'.status = RunStatus.FAILED ∧ run'.error = some e) ∧
    (∃ ev, ((create_run st run_id root_span now eng).1.list_events
        run_id).getLast? = some ev ∧ ev.type = EType.ERROR) ∧
    (∀ eng' : EngineCall, ∃ run'',
      (create_run st run_id root_span now eng').1.get_run run_id =
        some run'' ∧ run''.status ≠ RunStatus.RUNNING) := by
  have hmain : ∀ (eng' : EngineCall), ∃ run'',
      (create_run st run_id root_span now eng').1.get_run run_id =
        some run'' ∧ run''.status ≠ RunStatus.RUNNING := by
    intro eng'
    cases hout' : eng'.outcome with
    | none =>
      have hg : (create_run st run_id root_span now eng').1.get_run run_id =
          some ({ runId := run_id
                  status := RunStatus.WAITING_APPROVAL
                  createdAtMs := now
                  updatedAtMs := now
                  threadId := run_id
                  rootSpanId := root_span
                  interrupt := some (JVal.jobj interruptKVs)
                  error := none } : RunState) := by
        unfold create_run
        rw [hout']
        simp only []
        rw [emit_event_get_run]
        exact update_run_get_self _ _
      exact ⟨_, hg, by simp⟩
    | some e' =>
      have hg : (create_run st run_id root_span now eng').1.get_run run_id =
          some ({ runId := run_id
                  status := RunStatus.FAILED
                  createdAtMs := now
                  updatedAtMs := now
                  threadId := run_id
                  rootSpanId := root_span
                  interrupt := none
                  error := some e' } : RunState) := by
        unfold create_run
        rw [hout']
        simp only []
        rw [emit_event_get_run]
        exact update_run_get_self _ _
      exact ⟨_, hg, by simp⟩
  have hg2 : (create_run st run_id root_span now eng).1.get_run run_id =
      some ({ runId := run_id
              status := RunStatus.FAILED
              createdAtMs := now
              updatedAtMs := now
              threadId := run_id
              rootSpanId := root_span
              interrupt := none
              error := some e } : RunState) := by
    unfold create_run
    rw [hout]
    simp only []
    rw [emit_event_get_run]
    exact update_run_get_self _ _
  refine ⟨?_, ⟨_, hg2, rfl, rfl⟩, ?_, hmain⟩
  · unfold create_run
    rw [hout]
  · unfold create_run
    rw [hout]
    simp only []
    refine ⟨emit_event_build now run_id root_span none EType.ERROR
      (errPayload e), ?_, rfl⟩
    rw [emit_event_list_events_self]
    exact List.getLast?_concat _

theorem C5_create_fault_reports_failed_witness :
    (create_run (demoStore RunStatus.RUNNING) ("r2".data) ("sp2".data) 7
      ⟨[], some ("boom".data)⟩).2 =
        CreateResp.ok ("r2".data) RunStatus.FAILED ∧
    (∃ run', (create_run (demoStore RunStatus.RUNNING) ("r2".data) ("sp2".data)
        7 ⟨[], some ("boom".data)⟩).1.get_run ("r2".data) = some run' ∧
      run'.status = RunStatus.FAILED ∧ run'.error = some ("boom".data)) ∧
    (∃ ev, ((create_run (demoStore RunStatus.RUNNING) ("r2".data) ("sp2".data)
        7 ⟨[], some ("boom".data)⟩).1.list_events ("r2".data)).getLast? =
          some ev ∧ ev.type = EType.ERROR) ∧
    (∀ eng' : EngineCall, ∃ run'',
      (create_run (demoStore RunStatus.RUNNING) ("r2".data) ("sp2".data) 7
        eng').1.get_run ("r2".data) = some run'' ∧
      run''.status ≠ RunStatus.RUNNING) :=
  C5_create_fault_reports_failed (demoStore RunStatus.RUNNING) ("r2".data)
    ("sp2".data) 7 ⟨[], some ("boom".data)⟩ ("boom".data) rfl

theorem applyEmits_get_run (st : MemoryStore) (rid span : List Char)
    (now : Nat) (emits : List (EType × List (List Char × JVal)))
    (r : List Char) : (applyEmits st rid span now emits).get_run r =
      st.get_run r := by
  unfold MemoryStore.get_run
  rw [applyEmits_runs]

/-- On a WAITING_APPROVAL run, `resume_run` reduces to the invoke branch. -/
theorem resume_run_eq_of_waiting {st : MemoryStore} {run_id : List Char}
    {run : RunState} (approved : Bool) (notes : Option (List Char)) (now : Nat)
    (eng : EngineCall) (hlook : st.get_run run_id = some run)
    (hwa : run.status = RunStatus.WAITING_APPROVAL) :
    resume_run st run_id approved notes now eng =
      (match eng.outcome with
       | none =>
         ((applyEmits (emit_event st run_id run.rootSpanId none EType.RESUMED
             (resumedPayload approved notes) now).1 run_id run.rootSpanId now
             eng.emits).update_run
           { run with
             status := RunStatus.COMPLETED
             interrupt := none
             updatedAtMs := now }, ResumeResult.success)
       | some e =>
         ((emit_event ((applyEmits (emit_event st run_id run.rootSpanId none
             EType.RESUMED (resumedPayload approved notes) now).1 run_id
             run.rootSpanId now eng.emits).update_run
           { run with
             status := RunStatus.FAILED
             error := some e
             updatedAtMs := now }) run_id run.rootSpanId none EType.ERROR
             (errPayload e) now).1, ResumeResult.raised e)) := by
  unfold resume_run
  rw [hlook]
  simp only []
  rw [if_pos hwa]

theorem update_run_runs (st : MemoryStore) (run : RunState) :
    (st.update_run run).runs = aset st.runs run.runId run := rfl

/-- Success-path behaviour of `resume_run` on a WAITING_APPROVAL run. -/
theorem resume_ok_spec {st : MemoryStore} {run_id : List Char}
    {run : RunState} (approved : Bool) (notes : Option (List Char)) (now : Nat)
    (eng : EngineCall) (hlook : st.get_run run_id = some run)
    (hid : run.runId = run_id) (hwa : run.status = RunStatus.WAITING_APPROVAL)
    (hok : eng.outcome = none) :
    (resume_run st run_id approved notes now eng).2 = ResumeResult.success ∧
    (resume_run st run_id approved notes now eng).1.get_run run_id =
      some { run with
        status := RunStatus.COMPLETED
        interrupt := none
        updatedAtMs := now } ∧
    (resume_run st run_id approved notes now eng).1.list_events run_id =
      st.list_events run_id ++
        emit_event_build now run_id run.rootSpanId none EType.RESUMED
          (resumedPayload approved notes) ::
        emitsEvents run_id run.rootSpanId now eng.emits := by
  have hr := resume_run_eq_of_waiting approved notes now eng hlook hwa
  rw [hok] at hr
  simp only [] at hr
  refine ⟨by rw [hr], ?_, ?_⟩
  · rw [hr]
    have hkey : ({ run with
        status := RunStatus.COMPLETED
        interrupt := none
        updatedAtMs := now } : RunState).runId = run_id := hid
    show (MemoryStore.update_run _ _).get_run run_id = _
    rw [← hkey]
    exact update_run_get_self _ _
  · rw [hr]
    show (MemoryStore.update_run _ _).list_events run_id = _
    rw [update_run_list_events, applyEmits_events_self,
      emit_event_list_events_self]
    simp [List.append_assoc]

/-- Fault-path behaviour of `resume_run` on a WAITING_APPROVAL run. -/
theorem resume_fault_spec {st : MemoryStore} {run_id : List Char}
    {run : RunState} (approved : Bool) (notes : Option (List Char)) (now : Nat)
    (eng : EngineCall) (e : List Char) (hlook : st.get_run run_id = some run)
    (hid : run.runId = run_id) (hwa : run.status = RunStatus.WAITING_APPROVAL)
    (he : eng.outcome = some e) :
    (resume_run st run_id approved notes now eng).2 = ResumeResult.raised e ∧
    (resume_run st run_id approved notes now eng).1.get_run run_id =
      some { run with
        status := RunStatus.FAILED
        error := some e
        updatedAtMs := now } ∧
    (resume_run st run_id approved notes now eng).1.list_events run_id =
      st.list_events run_id ++
        emit_event_build now run_id run.rootSpanId none EType.RESUMED
          (resumedPayload approved notes) ::
        (emitsEvents run_id run.rootSpanId now eng.emits ++
          [emit_event_build now run_id run.rootSpanId none EType.ERROR
            (errPayload e)]) := by
  have hr := resume_run_eq_of_waiting approved notes now eng hlook hwa
  rw [he] at hr
  simp only [] at hr
  refine ⟨by rw [hr], ?_, ?_⟩
  · rw [hr]
    have hkey : ({ run with
        status := RunStatus.FAILED
        error := some e
        updatedAtMs := now } : RunState).runId = run_id := hid
    rw [emit_event_get_run]
    show (MemoryStore.update_run _ _).get_run run_id = _
    rw [← hkey]
    exact update_run_get_self _ _
  · rw [hr]
    rw [emit_event_list_events_self]
    show (MemoryStore.update_run _ _).list_events run_id ++ _ = _
    rw [update_run_list_events, applyEmits_events_self,
      emit_event_list_events_self]
    simp [List.append_assoc]

/-- After a successful Resume the run registry is the old registry with the
COMPLETED record written at the run's key, for either approved flag. -/
theorem resume_ok_runs {st : MemoryStore} {run_id : List Char}
    {run : RunState} (approved : Bool) (notes : Option (List Char)) (now : Nat)
    (eng : EngineCall) (hlook : st.get_run run_id = some run)
    (hwa : run.status = RunStatus.WAITING_APPROVAL)
    (hok : eng.outcome = none) :
    (resume_run st run_id approved notes now eng).1.runs =
      aset st.runs ({ run with
        status := RunStatus.COMPLETED
        interrupt := none
        updatedAtMs := now } : RunState).runId
        { run with
          status := RunStatus.COMPLETED
          interrupt := none
          updatedAtMs := now } := by
  have hr := resume_run_eq_of_waiting approved notes now eng hlook hwa
  rw [hok] at hr
  simp only [] at hr
  rw [hr]
  rw [update_run_runs, applyEmits_runs]
  rfl

/-- C6: on a WAITING_APPROVAL run, Resume first appends a RESUMED event
carrying the request input; if the engine outcome is normal the run becomes
COMPLETED with its interrupt cleared and the call returns success, while if
the engine raises the run becomes FAILED with the error recorded, an ERROR
event is appended last, and the exception is re-raised to the caller
(`ResumeResult.raised`) instead of being absorbed. -/
theorem C6_resume_waiting_semantics (st : MemoryStore) (run_id : List Char)
    (run : RunState) (approved : Bool) (notes : Option (List Char)) (now : Nat)
    (eng : EngineCall) (hlook : st.get_run run_id = some run)
    (hid : run.runId = run_id) (hwa : run.status = RunStatus.WAITING_APPROVAL) :
    (eng.outcome = none →
      (resume_run st run_id approved notes now eng).2 = ResumeResult.success ∧
      (resume_run st run_id approved notes now eng).1.get_run run_id =
        some { run with
          status := RunStatus.COMPLETED
          interrupt := none
          updatedAtMs := now } ∧
      (resume_run st run_id approved notes now eng).1.list_events run_id =
        st.list_events run_id ++
          emit_event_build now run_id run.rootSpanId none EType.RESUMED
            (resumedPayload approved notes) ::
          emitsEvents run_id run.rootSpanId now eng.emits) ∧
    (∀ e, eng.outcome = some e →
      (resume_run st run_id approved notes now eng).2 =
        ResumeResult.raised e ∧
      (resume_run st run_id approved notes now eng).1.get_run run_id =
        some { run with
          status := RunStatus.FAILED
          error := some e
          updatedAtMs := now } ∧
      (resume_run st run_id approved notes now eng).1.list_events run_id =
        st.list_events run_id ++
          emit_event_build now run_id run.rootSpanId none EType.RESUMED
            (resumedPayload approved notes) ::
          (emitsEvents run_id run.rootSpanId now eng.emits ++
            [emit_event_build now run_id run.rootSpanId none EType.ERROR
              (errPayload e)])) :=
  ⟨fun hok => resume_ok_spec approved notes now eng hlook hid hwa hok,
   fun e he => resume_fault_spec approved notes now eng e hlook hid hwa he⟩

theorem C6_resume_waiting_semantics_witness :
    (resume_run (demoStore RunStatus.WAITING_APPROVAL) ("r1".data) true none
      9 ⟨[], none⟩).2 = ResumeResult.success ∧
    (resume_run (demoStore RunStatus.WAITING_APPROVAL) ("r1".data) true none
      9 ⟨[], none⟩).1.get_run ("r1".data) =
      some { demoRun RunStatus.WAITING_APPROVAL with
        status := RunStatus.COMPLETED
        interrupt := none
        updatedAtMs := 9 } ∧
    (resume_run (demoStore RunStatus.WAITING_APPROVAL) ("r1".data) true none
      9 ⟨[], none⟩).1.list_events ("r1".data) =
      (demoStore RunStatus.WAITING_APPROVAL).list_events ("r1".data) ++
        emit_event_build 9 ("r1".data)
          (demoRun RunStatus.WAITING_APPROVAL).rootSpanId none EType.RESUMED
          (resumedPayload true none) ::
        emitsEvents ("r1".data) (demoRun RunStatus.WAITING_APPROVAL).rootSpanId
          9 ([] : List (EType × List (List Char × JVal))) :=
  (C6_resume_waiting_semantics (demoStore RunStatus.WAITING_APPROVAL)
    ("r1".data) (demoRun RunStatus.WAITING_APPROVAL) true none 9 ⟨[], none⟩
    rfl rfl rfl).1 rfl

/-- C10: on a WAITING_APPROVAL run with a normally-terminating engine resume,
the approved flag does not influence the control path: for either value of
`approved` the call succeeds, the run transitions to the same COMPLETED state
with interrupt cleared, the run registry is identical to the approved = true
outcome, and the flag appears only inside the RESUMED event's payload. -/
theorem C10_resume_ignores_approved (st : MemoryStore) (run_id : List Char)
    (run : RunState) (notes : Option (List Char)) (now : Nat)
    (eng : EngineCall) (hlook : st.get_run run_id = some run)
    (hid : run.runId = run_id) (hwa : run.status = RunStatus.WAITING_APPROVAL)
    (hok : eng.outcome = none) :
    ∀ approved : Bool,
      (resume_run st run_id approved notes now eng).2 =
        ResumeResult.success ∧
      (resume_run st run_id approved notes now eng).1.get_run run_id =
        some { run with
          status := RunStatus.COMPLETED
          interrupt := none
          updatedAtMs := now } ∧
      (resume_run st run_id approved notes now eng).1.runs =
        (resume_run st run_id true notes now eng).1.runs ∧
      (resume_run st run_id approved notes now eng).1.list_events run_id =
        st.list_events run_id ++
          emit_event_build now run_id run.rootSpanId none EType.RESUMED
            (resumedPayload approved notes) ::
          emitsEvents run_id run.rootSpanId now eng.emits := by
  intro approved
  obtain ⟨h1, h2, h4⟩ := resume_ok_spec approved notes now eng hlook hid hwa
    hok
  refine ⟨h1, h2, ?_, h4⟩
  rw [resume_ok_runs approved notes now eng hlook hwa hok,
    resume_ok_runs true notes now eng hlook hwa hok]

theorem C10_resume_ignores_approved_witness :
    (resume_run (demoStore RunStatus.WAITING_APPROVAL) ("r1".data) false
      none 9 ⟨[], none⟩).2 = ResumeResult.success ∧
    (resume_run (demoStore RunStatus.WAITING_APPROVAL) ("r1".data) false
      none 9 ⟨[], none⟩).1.get_run ("r1".data) =
      some { demoRun RunStatus.WAITING_APPROVAL with
        status := RunStatus.COMPLETED
        interrupt := none
        updatedAtMs := 9 } ∧
    (resume_run (demoStore RunStatus.WAITING_APPROVAL) ("r1".data) false
      none 9 ⟨[], none⟩).1.runs =
      (resume_run (demoStore RunStatus.WAITING_APPROVAL) ("r1".data) true
        none 9 ⟨[], none⟩).1.runs ∧
    (resume_run (demoStore RunStatus.WAITING_APPROVAL) ("r1".data) false
      none 9 ⟨[], none⟩).1.list_events ("r1".data) =
      (demoStore RunStatus.WAITING_APPROVAL).list_events ("r1".data) ++
        emit_event_build 9 ("r1".data)
          (demoRun RunStatus.WAITING_APPROVAL).rootSpanId none EType.RESUMED
          (resumedPayload false none) ::
        emitsEvents ("r1".data)
          (demoRun RunStatus.WAITING_APPROVAL).rootSpanId 9
          ([] : List (EType × List (List Char × JVal))) :=
  C10_resume_ignores_approved (demoStore RunStatus.WAITING_APPROVAL)
    ("r1".data) (demoRun RunStatus.WAITING_APPROVAL) none 9 ⟨[], none⟩
    rfl rfl rfl rfl false

/-- The store before any run is created. -/
def emptyStore : MemoryStore := ⟨[], []⟩

/-- COMPLETED, FAILED and CANCELLED are the terminal statuses. -/
def RunStatus.isTerminal : RunStatus → Bool
  | RunStatus.COMPLETED => true
  | RunStatus.FAILED => true
  | RunStatus.CANCELLED => true
  | _ => false

/-- The coordinator operations exposed by the routes. -/
inductive SysOp where
  | create : List Char → List Char → Nat → EngineCall → SysOp
  | resume : List Char → Bool → Option (List Char) → Nat → EngineCall → SysOp
  | cancel : List Char → Nat → SysOp
  | get : List Char → SysOp
  | listEv : List Char → SysOp

/-- State effect of one coordinator operation (Get and event listing are
read-only). -/
def applyOp (st : MemoryStore) : SysOp → MemoryStore
  | SysOp.create rid span now eng => (create_run st rid span now eng).1
  | SysOp.resume rid a notes now eng => (resume_run st rid a notes now eng).1
  | SysOp.cancel rid now => (cancel_run st rid now).1
  | SysOp.get _ => st
  | SysOp.listEv _ => st

def applyOps (st : MemoryStore) (ops : List SysOp) : MemoryStore :=
  ops.foldl applyOp st

/-- A Create op uses a fresh identifier distinct from `rid` (in runs.py the
run id of Create is a freshly generated uuid4, never an existing id). -/
def opFresh (rid : List Char) : SysOp → Bool
  | SysOp.create rid' _ _ _ => rid' ≠ rid
  | _ => true

/-- Every registry entry is keyed by its record's own runId.  All writes go
through `aset st.runs run.runId run`, so this holds for every reachable
store. -/
def KeyConsistent (st : MemoryStore) : Prop :=
  ∀ k r, alookup st.runs k = some r → r.runId = k

theorem alookup_aset_elim {α : Type} :
    ∀ (l : List (List Char × α)) (k q : List Char) (v w : α),
      alookup (aset l k v) q = some w →
      (q = k ∧ w = v) ∨ alookup l q = some w := by
  intro l
  induction l with
  | nil =>
    intro k q v w h
    simp only [aset, alookup] at h
    by_cases hq : k = q
    · rw [if_pos hq] at h
      exact Or.inl ⟨hq.symm, (Option.some_inj.mp h).symm⟩
    · rw [if_neg hq] at h
      exact absurd h (by simp)
  | cons p rest ih =>
    intro k q v w h
    obtain ⟨a, b⟩ := p
    simp only [aset] at h
    by_cases hak : a = k
    · rw [if_pos hak] at h
      simp only [alookup] at h
      by_cases haq : a = q
      · rw [if_pos haq] at h
        exact Or.inl ⟨by rw [← haq, hak], (Option.some_inj.mp h).symm⟩
      · rw [if_neg haq] at h
        right
        simp only [alookup]
        rw [if_neg haq]
        exact h
    · rw [if_neg hak] at h
      simp only [alookup] at h ⊢
      by_cases haq : a = q
      · rw [if_pos haq] at h ⊢
        exact Or.inr h
      · rw [if_neg haq] at h ⊢
        rcases ih k q v w h with h1 | h2
        · exact Or.inl h1
        · exact Or.inr h2

theorem alookup_aset_isSome_mono {α : Type} (l : List (List Char × α))
    (k q : List Char) (v : α) (h : (alookup l q).isSome = true) :
    (alookup (aset l k v) q).isSome = true := by
  by_cases hqk : k = q
  · rw [hqk, alookup_aset_self]
    rfl
  · rw [alookup_aset_ne l k q v hqk]
    exact h

theorem create_run_runs (st : MemoryStore) (run : RunState) :
    (st.create_run run).runs = aset st.runs run.runId run := rfl

theorem emit_event_runs (st : MemoryStore) (run_id span_id : List Char)
    (parent : Option (List Char)) (ty : EType)
    (payload : List (List Char × JVal)) (ts : Nat) :
    (emit_event st run_id span_id parent ty payload ts).1.runs = st.runs := rfl

theorem create_run_get_ne (st : MemoryStore) (run : RunState)
    (rid : List Char) (h : run.runId ≠ rid) :
    (st.create_run run).get_run rid = st.get_run rid :=
  alookup_aset_ne st.runs run.runId rid run h

theorem update_run_has_self (st : MemoryStore) (run : RunState) :
    (alookup (st.update_run run).runs run.runId).isSome = true := by
  rw [update_run_runs, alookup_aset_self]
  rfl

theorem kc_runs_eq {st st' : MemoryStore} (h : st'.runs = st.runs)
    (hk : KeyConsistent st) : KeyConsistent st' :=
  fun k r hr => hk k r (by rw [← h]; exact hr)

theorem kc_update (st : MemoryStore) (run : RunState)
    (hk : KeyConsistent st) : KeyConsistent (st.update_run run) := by
  intro k r hr
  have hr' : alookup (aset st.runs run.runId run) k = some r := hr
  rcases alookup_aset_elim _ _ _ _ _ hr' with ⟨hk1, hv⟩ | h2
  · rw [hv, hk1]
  · exact hk k r h2

theorem kc_create (st : MemoryStore) (run : RunState)
    (hk : KeyConsistent st) : KeyConsistent (st.create_run run) := by
  intro k r hr
  have hr' : alookup (aset st.runs run.runId run) k = some r := hr
  rcases alookup_aset_elim _ _ _ _ _ hr' with ⟨hk1, hv⟩ | h2
  · rw [hv, hk1]
  · exact hk k r h2

theorem kc_applyOp (st : MemoryStore) (op : SysOp) (hk : KeyConsistent st) :
    KeyConsistent (applyOp st op) := by
  cases op with
  | get rid => exact hk
  | listEv rid => exact hk
  | create rid span now eng =>
    show KeyConsistent (create_run st rid span now eng).1
    cases ho : eng.outcome with
    | none =>
      unfold create_run
      rw [ho]
      simp only []
      exact kc_runs_eq (emit_event_runs _ _ _ _ _ _ _)
        (kc_update _ _ (kc_runs_eq (applyEmits_runs _ _ _ _ _)
          (kc_runs_eq (emit_event_runs _ _ _ _ _ _ _)
            (kc_update _ _ (kc_create _ _ hk)))))
    | some e =>
      unfold create_run
      rw [ho]
      simp only []
      exact kc_runs_eq (emit_event_runs _ _ _ _ _ _ _)
        (kc_update _ _ (kc_runs_eq (applyEmits_runs _ _ _ _ _)
          (kc_runs_eq (emit_event_runs _ _ _ _ _ _ _)
            (kc_update _ _ (kc_create _ _ hk)))))
  | resume rid a notes now eng =>
    show KeyConsistent (resume_run st rid a notes now eng).1
    cases hg : st.get_run rid with
    | none =>
      have hs : (resume_run st rid a notes now eng).1 = st := by
        unfold resume_run
        rw [hg]
      rw [hs]
      exact hk
    | some r =>
      by_cases hwa : r.status = RunStatus.WAITING_APPROVAL
      · have hr := resume_run_eq_of_waiting a notes now eng hg hwa
        cases ho : eng.outcome with
        | none =>
          rw [ho] at hr
          simp only [] at hr
          rw [hr]
          exact kc_update _ _ (kc_runs_eq (applyEmits_runs _ _ _ _ _)
            (kc_runs_eq (emit_event_runs _ _ _ _ _ _ _) hk))
        | some e =>
          rw [ho] at hr
          simp only [] at hr
          rw [hr]
          exact kc_runs_eq (emit_event_runs _ _ _ _ _ _ _)
            (kc_update _ _ (kc_runs_eq (applyEmits_runs _ _ _ _ _)
              (kc_runs_eq (emit_event_runs _ _ _ _ _ _ _) hk)))
      · have hs : (resume_run st rid a notes now eng).1 = st := by
          unfold resume_run
          rw [hg]
          simp only []
          rw [if_neg hwa]
        rw [hs]
        exact hk
  | cancel rid now =>
    show KeyConsistent (cancel_run st rid now).1
    cases hg : st.get_run rid with
    | none =>
      have hs : (cancel_run st rid now).1 = st := by
        unfold cancel_run
        rw [hg]
      rw [hs]
      exact hk
    | some r =>
      by_cases h1 : r.status = RunStatus.COMPLETED ∨ r.status = RunStatus.FAILED
      · have hs : (cancel_run st rid now).1 = st := by
          unfold cancel_run
          rw [hg]
          simp only []
          rw [if_pos h1]
        rw [hs]
        exact hk
      · by_cases h2 : r.status = RunStatus.CANCELLED
        · have hs : (cancel_run st rid now).1 = st := by
            unfold cancel_run
            rw [hg]
            simp only []
            rw [if_neg h1, if_pos h2]
          rw [hs]
          exact hk
        · have hs : (cancel_run st rid now).1 =
              (emit_event (st.update_run { r with
                status := RunStatus.CANCELLED
                updatedAtMs := now }) rid r.rootSpanId none EType.CANCELLED
                cancelledPayload now).1 := by
            unfold cancel_run
            rw [hg]
            simp only []
            rw [if_neg h1, if_neg h2]
          rw [hs]
          exact kc_runs_eq (emit_event_runs _ _ _ _ _ _ _)
            (kc_update _ _ hk)

theorem kc_applyOps : ∀ (ops : List SysOp) (st : MemoryStore),
    KeyConsistent st → KeyConsistent (applyOps st ops) := by
  intro ops
  induction ops with
  | nil => intro st hk; exact hk
  | cons op rest ih =>
    intro st hk
    exact ih (applyOp st op) (kc_applyOp st op hk)

/-- One operation cannot move a run out of a terminal status: the run record
found under `rid` afterwards is the same record. -/
theorem applyOp_keeps_terminal (st : MemoryStore) (op : SysOp)
    (rid : List Char) (run : RunState) (hkc : KeyConsistent st)
    (hg : st.get_run rid = some run)
    (ht : run.status.isTerminal = true) (hf : opFresh rid op = true) :
    (applyOp st op).get_run rid = some run := by
  cases op with
  | get rid' => exact hg
  | listEv rid' => exact hg
  | create rid' span now eng =>
    have hf' : rid' ≠ rid := of_decide_eq_true hf
    show (create_run st rid' span now eng).1.get_run rid = some run
    cases ho : eng.outcome with
    | none =>
      unfold create_run
      rw [ho]
      simp only []
      rw [emit_event_get_run]
      rw [update_run_get_ne _ _ _ hf']
      rw [applyEmits_get_run, emit_event_get_run]
      rw [update_run_get_ne _ _ _ hf']
      rw [create_run_get_ne _ _ _ hf']
      exact hg
    | some e =>
      unfold create_run
      rw [ho]
      simp only []
      rw [emit_event_get_run]
      rw [update_run_get_ne _ _ _ hf']
      rw [applyEmits_get_run, emit_event_get_run]
      rw [update_run_get_ne _ _ _ hf']
      rw [create_run_get_ne _ _ _ hf']
      exact hg
  | resume rid' a notes now eng =>
    show (resume_run st rid' a notes now eng).1.get_run rid = some run
    by_cases hrr : rid' = rid
    · subst hrr
      have hnw : run.status ≠ RunStatus.WAITING_APPROVAL := by
        intro hww
        rw [hww] at ht
        exact absurd ht (by decide)
      have hs : (resume_run st rid' a notes now eng).1 = st := by
        unfold resume_run
        rw [hg]
        simp only []
        rw [if_neg hnw]
      rw [hs]
      exact hg
    · cases hg' : st.get_run rid' with
      | none =>
        have hs : (resume_run st rid' a notes now eng).1 = st := by
          unfold resume_run
          rw [hg']
        rw [hs]
        exact hg
      | some r' =>
        have hr' : r'.runId = rid' := hkc rid' r' hg'
        by_cases hwa : r'.status = RunStatus.WAITING_APPROVAL
        · have hne : r'.runId ≠ rid := by
            rw [hr']
            exact hrr
          have hr := resume_run_eq_of_waiting a notes now eng hg' hwa
          cases ho : eng.outcome with
          | none =>
            rw [ho] at hr
            simp only [] at hr
            rw [hr]
            have hne2 : ({ r' with
                status := RunStatus.COMPLETED
                interrupt := none
                updatedAtMs := now } : RunState).runId ≠ rid := hne
            rw [update_run_get_ne _ _ _ hne2, applyEmits_get_run,
              emit_event_get_run]
            exact hg
          | some e =>
            rw [ho] at hr
            simp only [] at hr
            rw [hr]
            have hne2 : ({ r' with
                status := RunStatus.FAILED
                error := some e
                updatedAtMs := now } : RunState).runId ≠ rid := hne
            rw [emit_event_get_run, update_run_get_ne _ _ _ hne2,
              applyEmits_get_run, emit_event_get_run]
            exact hg
        · have hs : (resume_run st rid' a notes now eng).1 = st := by
            unfold resume_run
            rw [hg']
            simp only []
            rw [if_neg hwa]
          rw [hs]
          exact hg
  | cancel rid' now =>
    show (cancel_run st rid' now).1.get_run rid = some run
    by_cases hrr : rid' = rid
    · subst hrr
      have hs : (cancel_run st rid' now).1 = st := by
        unfold cancel_run
        rw [hg]
        simp only []
        by_cases hterm2 : run.status = RunStatus.COMPLETED ∨
            run.status = RunStatus.FAILED
        · rw [if_pos hterm2]
        · rw [if_neg hterm2]
          have hc : run.status = RunStatus.CANCELLED := by
            cases hstc : run.status with
            | PENDING => rw [hstc] at ht; exact absurd ht (by decide)
            | RUNNING => rw [hstc] at ht; exact absurd ht (by decide)
            | WAITING_APPROVAL => rw [hstc] at ht; exact absurd ht (by decide)
            | COMPLETED => exact absurd (Or.inl hstc) hterm2
            | FAILED => exact absurd (Or.inr hstc) hterm2
            | CANCELLED => rfl
          rw [if_pos hc]
      rw [hs]
      exact hg
    · cases hg' : st.get_run rid' with
      | none =>
        have hs : (cancel_run st rid' now).1 = st := by
          unfold cancel_run
          rw [hg']
        rw [hs]
        exact hg
      | some r' =>
        have hr' : r'.runId = rid' := hkc rid' r' hg'
        have hne : r'.runId ≠ rid := by
          rw [hr']
          exact hrr
        unfold cancel_run
        rw [hg']
        simp only []
        by_cases h1 : r'.status = RunStatus.COMPLETED ∨
            r'.status = RunStatus.FAILED
        · rw [if_pos h1]
          exact hg
        · rw [if_neg h1]
          by_cases h2 : r'.status = RunStatus.CANCELLED
          · rw [if_pos h2]
            exact hg
          · rw [if_neg h2]
            have hne2 : ({ r' with
                status := RunStatus.CANCELLED
                updatedAtMs := now } : RunState).runId ≠ rid := hne
            rw [emit_event_get_run, update_run_get_ne _ _ _ hne2]
            exact hg

theorem applyOps_keep_terminal : ∀ (ops : List SysOp) (st : MemoryStore)
    (rid : List Char) (run : RunState), KeyConsistent st →
    st.get_run rid = some run → run.status.isTerminal = true →
    (∀ op ∈ ops, opFresh rid op = true) →
    (applyOps st ops).get_run rid = some run := by
  intro ops
  induction ops with
  | nil => intro st rid run _ hg _ _; exact hg
  | cons op rest ih =>
    intro st rid run hk hg ht hf
    have h1 := applyOp_keeps_terminal st op rid run hk hg ht
      (hf op (List.mem_cons_self _ _))
    exact ih (applyOp st op) rid run (kc_applyOp st op hk) h1 ht
      (fun o ho => hf o (List.mem_cons_of_mem _ ho))

/-- Every run in a `demoStore` is keyed by its own id. -/
theorem demoStore_kc (stt : RunStatus) : KeyConsistent (demoStore stt) := by
  intro k r hr
  have hr' : alookup [(("r1".data : List Char), demoRun stt)] k = some r := hr
  simp only [alookup] at hr'
  by_cases hk : ("r1".data : List Char) = k
  · rw [if_pos hk] at hr'
    have hv : demoRun stt = r := Option.some_inj.mp hr'
    rw [← hv, ← hk]
    rfl
  · rw [if_neg hk] at hr'
    exact absurd hr' (by simp)

/-- C7: once a run is in a terminal status (COMPLETED, FAILED or CANCELLED),
no sequence of coordinator operations — Create (with its uuid-fresh run id),
Resume, Cancel, Get, event listing — ever changes that run again: the run
record, and in particular its status, is exactly the one the sequence
started from.  The store must be key-consistent (every registry entry keyed
by its record's runId), which holds for every store the routes build. -/
theorem C7_terminal_status_frozen (st : MemoryStore) (ops : List SysOp)
    (rid : List Char) (run : RunState) (hkc : KeyConsistent st)
    (hg : st.get_run rid = some run) (ht : run.status.isTerminal = true)
    (hf : ∀ op ∈ ops, opFresh rid op = true) :
    (applyOps st ops).get_run rid = some run :=
  applyOps_keep_terminal ops st rid run hkc hg ht hf

theorem C7_terminal_status_frozen_witness :
    (applyOps (demoStore RunStatus.COMPLETED)
      [SysOp.cancel ("r1".data) 3,
       SysOp.resume ("r1".data) true none 4 ⟨[], none⟩,
       SysOp.create ("r2".data) ("sp2".data) 5 ⟨[], none⟩,
       SysOp.get ("r1".data),
       SysOp.listEv ("r1".data)]).get_run ("r1".data) =
      some (demoRun RunStatus.COMPLETED) :=
  C7_terminal_status_frozen (demoStore RunStatus.COMPLETED)
    [SysOp.cancel ("r1".data) 3,
     SysOp.resume ("r1".data) true none 4 ⟨[], none⟩,
     SysOp.create ("r2".data) ("sp2".data) 5 ⟨[], none⟩,
     SysOp.get ("r1".data),
     SysOp.listEv ("r1".data)]
    ("r1".data) (demoRun RunStatus.COMPLETED)
    (demoStore_kc RunStatus.COMPLETED) rfl (by decide) (by decide)

/-- The events table only holds keys present in the run registry. -/
def EventsRegistered (st : MemoryStore) : Prop :=
  ∀ k, (alookup st.events k).isSome = true → (alookup st.runs k).isSome = true

theorem er_add_event (st : MemoryStore) (rid : List Char) (ev : AdapterEvent)
    (her : EventsRegistered st) (hr : (alookup st.runs rid).isSome = true) :
    EventsRegistered (st.add_event rid ev) := by
  intro k hk
  have hk' : (alookup (aset st.events rid
      (((alookup st.events rid).getD []) ++ [ev])) k).isSome = true := hk
  show (alookup st.runs k).isSome = true
  rcases Option.isSome_iff_exists.mp hk' with ⟨w, hw⟩
  rcases alookup_aset_elim _ _ _ _ _ hw with ⟨hq, _⟩ | h2
  · rw [hq]
    exact hr
  · exact her k (by rw [h2]; rfl)

theorem er_update (st : MemoryStore) (run : RunState)
    (her : EventsRegistered st) : EventsRegistered (st.update_run run) := by
  intro k hk
  have hk' : (alookup st.events k).isSome = true := hk
  show (alookup (aset st.runs run.runId run) k).isSome = true
  exact alookup_aset_isSome_mono _ _ _ _ (her k hk')

theorem er_create (st : MemoryStore) (run : RunState)
    (her : EventsRegistered st) : EventsRegistered (st.create_run run) := by
  intro k hk
  have hk' : (alookup (aset st.events run.runId []) k).isSome = true := hk
  show (alookup (aset st.runs run.runId run) k).isSome = true
  rcases Option.isSome_iff_exists.mp hk' with ⟨w, hw⟩
  rcases alookup_aset_elim _ _ _ _ _ hw with ⟨hq, _⟩ | h2
  · rw [hq, alookup_aset_self]
    rfl
  · exact alookup_aset_isSome_mono _ _ _ _ (her k (by rw [h2]; rfl))

theorem er_applyEmits (rid span : List Char) (now : Nat) :
    ∀ (emits : List (EType × List (List Char × JVal))) (st : MemoryStore),
      EventsRegistered st → (alookup st.runs rid).isSome = true →
      EventsRegistered (applyEmits st rid span now emits) := by
  intro emits
  induction emits with
  | nil => intro st her _; exact her
  | cons e rest ih =>
    intro st her hr
    have h1 : applyEmits st rid span now (e :: rest) =
        applyEmits (st.add_event rid
          (emit_event_build now rid span none e.1 e.2)) rid span now rest :=
      rfl
    rw [h1]
    exact ih _ (er_add_event _ _ _ her hr) hr

theorem er_create_route (st : MemoryStore) (rid span : List Char) (now : Nat)
    (eng : EngineCall) (her : EventsRegistered st) :
    EventsRegistered (create_run st rid span now eng).1 := by
  cases ho : eng.outcome with
  | none =>
    unfold create_run
    rw [ho]
    simp only []
    exact er_add_event _ _ _
      (er_update _ _
        (er_applyEmits _ _ _ _ _
          (er_add_event _ _ _ (er_update _ _ (er_create _ _ her))
            (update_run_has_self _ _))
          (update_run_has_self _ _)))
      (update_run_has_self _ _)
  | some e =>
    unfold create_run
    rw [ho]
    simp only []
    exact er_add_event _ _ _
      (er_update _ _
        (er_applyEmits _ _ _ _ _
          (er_add_event _ _ _ (er_update _ _ (er_create _ _ her))
            (update_run_has_self _ _))
          (update_run_has_self _ _)))
      (update_run_has_self _ _)

theorem er_resume_route (st : MemoryStore) (rid : List Char) (a : Bool)
    (notes : Option (List Char)) (now : Nat) (eng : EngineCall)
    (her : EventsRegistered st) :
    EventsRegistered (resume_run st rid a notes now eng).1 := by
  cases hg : st.get_run rid with
  | none =>
    have hs : (resume_run st rid a notes now eng).1 = st := by
      unfold resume_run
      rw [hg]
    rw [hs]
    exact her
  | some r =>
    by_cases hwa : r.status = RunStatus.WAITING_APPROVAL
    · have hsome : (alookup st.runs rid).isSome = true := by
        show (st.get_run rid).isSome = true
        rw [hg]
        rfl
      have hr := resume_run_eq_of_waiting a notes now eng hg hwa
      cases ho : eng.outcome with
      | none =>
        rw [ho] at hr
        simp only [] at hr
        rw [hr]
        exact er_update _ _
          (er_applyEmits _ _ _ _ _ (er_add_event _ _ _ her hsome) hsome)
      | some e =>
        rw [ho] at hr
        simp only [] at hr
        rw [hr]
        refine er_add_event _ _ _
          (er_update _ _
            (er_applyEmits _ _ _ _ _ (er_add_event _ _ _ her hsome) hsome))
          ?_
        show (alookup (aset _ _ _) rid).isSome = true
        refine alookup_aset_isSome_mono _ _ _ _ ?_
        rw [applyEmits_runs]
        exact hsome
    · have hs : (resume_run st rid a notes now eng).1 = st := by
        unfold resume_run
        rw [hg]
        simp only []
        rw [if_neg hwa]
      rw [hs]
      exact her

theorem er_cancel_route (st : MemoryStore) (rid : List Char) (now : Nat)
    (her : EventsRegistered st) :
    EventsRegistered (cancel_run st rid now).1 := by
  cases hg : st.get_run rid with
  | none =>
    have hs : (cancel_run st rid now).1 = st := by
      unfold cancel_run
      rw [hg]
    rw [hs]
    exact her
  | some r =>
    by_cases h1 : r.status = RunStatus.COMPLETED ∨ r.status = RunStatus.FAILED
    · have hs : (cancel_run st rid now).1 = st := by
        unfold cancel_run
        rw [hg]
        simp only []
        rw [if_pos h1]
      rw [hs]
      exact her
    · by_cases h2 : r.status = RunStatus.CANCELLED
      · have hs : (cancel_run st rid now).1 = st := by
          unfold cancel_run
          rw [hg]
          simp only []
          rw [if_neg h1, if_pos h2]
        rw [hs]
        exact her
      · have hsome : (alookup st.runs rid).isSome = true := by
          show (st.get_run rid).isSome = true
          rw [hg]
          rfl
        have hs : (cancel_run st rid now).1 =
            (emit_event (st.update_run { r with
              status := RunStatus.CANCELLED
              updatedAtMs := now }) rid r.rootSpanId none EType.CANCELLED
              cancelledPayload now).1 := by
          unfold cancel_run
          rw [hg]
          simp only []
          rw [if_neg h1, if_neg h2]
        rw [hs]
        refine er_add_event _ _ _ (er_update _ _ her) ?_
        show (alookup (aset _ _ _) rid).isSome = true
        exact alookup_aset_isSome_mono _ _ _ _ hsome

theorem er_applyOp (st : MemoryStore) (op : SysOp)
    (her : EventsRegistered st) : EventsRegistered (applyOp st op) := by
  cases op with
  | get rid => exact her
  | listEv rid => exact her
  | create rid span now eng => exact er_create_route st rid span now eng her
  | resume rid a notes now eng =>
    exact er_resume_route st rid a notes now eng her
  | cancel rid now => exact er_cancel_route st rid now her

/-- C8 (corrected): as literally stated the claim is false of the code —
`MemoryStore.add_event` uses `events.setdefault(run_id, []).append(ev)`,
which silently creates an event sequence for an identifier absent from the
run registry (see the counterexample theorem).  The corrected invariant
holds at the coordinator level: every event append performed by the route
operations targets a registered run, so across any operation sequence the
events table never acquires a key absent from the registry. -/
theorem C8_event_keys_registered_corrected (st : MemoryStore)
    (ops : List SysOp) (her : EventsRegistered st) :
    EventsRegistered (applyOps st ops) := by
  induction ops generalizing st with
  | nil => exact her
  | cons op rest ih => exact ih (applyOp st op) (er_applyOp st op her)

/-- An event with nothing to redact, used to probe `add_event` directly. -/
def ghostEvent : AdapterEvent :=
  { ts := 0
    run_id := "g".data
    span_id := "g".data
    parent_span_id := none
    type := EType.LOG
    payload := [] }

/-- C8 counterexample: appending an event under an identifier the run
registry does not contain does not fail — it creates a fresh event sequence
for that identifier, which still has no run. -/
theorem C8_add_event_unregistered_counterexample :
    emptyStore.has_run ("ghost".data) = false ∧
    (emptyStore.add_event ("ghost".data) ghostEvent).has_run ("ghost".data) =
      false ∧
    (emptyStore.add_event ("ghost".data) ghostEvent).list_events
      ("ghost".data) = [ghostEvent] :=
  ⟨rfl, rfl, rfl⟩

theorem C8_event_keys_registered_corrected_witness :
    EventsRegistered (applyOps emptyStore
      [SysOp.create ("r1".data) ("sp".data) 1 ⟨[], none⟩,
       SysOp.resume ("r1".data) true none 2 ⟨[], none⟩,
       SysOp.cancel ("r1".data) 3]) :=
  C8_event_keys_registered_corrected emptyStore
    [SysOp.create ("r1".data) ("sp".data) 1 ⟨[], none⟩,
     SysOp.resume ("r1".data) true none 2 ⟨[], none⟩,
     SysOp.cancel ("r1".data) 3]
    (fun _ hk => absurd hk Bool.false_ne_true)

